import Mathlib

/-!
# FIDS-TUI — verification of the split-flap board core

Shallow embedding of the FIDS-TUI repository (Go) in Lean 4:

* `models` package (`Flight`, `FlightStatus`, `Remarks`)  — file `part_003`;
* the character-flip animation engine (`CharAnimation`, `AnimatedText`)
  — file `part_001`;
* `FlightRow` — `src/ui/flight_row.go`;
* `Board` — `src/ui/board.go`, including a faithful embedding of Go's
  `sort.Slice` (the pattern-defeating quicksort of the Go standard
  library's `sort` package) which `UpdateFlights` calls;
* the `flightsMsg` branch of `model.Update` — `src/main.go`.

Modelling conventions:

* Go machine integers are modelled as `Int` (no overflow is ever
  approached by the program's quantities).
* Wall-clock values (`time.Time`) are modelled by `GoTime`: an absolute
  unix instant in seconds plus the offset (in seconds) of the location
  the value is expressed in.  `Time.In` changes only the offset,
  `Time.Before` compares instants, `Format("15:04")` reads the wall
  clock (instant + offset).
* The animation clock (`time.Now()` inside `AnimatedText`) is an
  independent `Int` counting milliseconds; `Update` and `Tick` take it
  as an explicit `now` argument.
* Go strings are byte sequences; the program treats them as sequences
  of single-byte characters (spec §9).  They are modelled as Lean
  `String`s indexed by `Char` position.
* Mutation is modelled by explicit state passing; a Go method on a
  pointer receiver becomes a function returning the updated value.
-/

namespace FIDS

/-- Model of Go `time.Time`: absolute instant (unix seconds) plus the
offset, in seconds, of the location in which the value is expressed. -/
structure GoTime where
  unix : Int
  offset : Int
  deriving Repr, DecidableEq

/-- Go `t.In(loc)` for a fixed-offset location: same instant, new offset. -/
def GoTime.inTZ (off : Int) (t : GoTime) : GoTime :=
  { unix := t.unix, offset := off }

/-- Go `t1.Before(t2)`: strict comparison of instants. -/
def GoTime.before (t1 t2 : GoTime) : Bool :=
  t1.unix < t2.unix

/-- Two-digit decimal rendering used by Go's time formatting. -/
def pad2 (n : Int) : String :=
  if n < 10 then "0" ++ toString n else toString n

/-- Go `t.Format("15:04")`: hour and minute of the wall clock at `t`'s
offset. -/
def GoTime.format1504 (t : GoTime) : String :=
  let secOfDay := (t.unix + t.offset).emod 86400
  pad2 (secOfDay / 3600) ++ ":" ++ pad2 ((secOfDay / 60).emod 60)

/-- `models.FlightStatus` (part_003). -/
inductive FlightStatus where
  | onTime | delayed | taxiingLeftGate | taxiingDelayed | cancelled
  deriving Repr, DecidableEq

/-- `models.Flight` (part_003).  `Remarks` (a Go string type) is a
plain `String`. -/
structure Flight where
  status : FlightStatus
  airlineCode : String
  airlineName : String
  flightNumber : String
  destinationCode : String
  destinationCity : String
  gate : String
  remarks : String
  scheduledDeparture : GoTime
  estimatedDeparture : Option GoTime
  deriving Repr, DecidableEq

instance : Inhabited Flight :=
  ⟨{ status := .onTime, airlineCode := "", airlineName := "",
     flightNumber := "", destinationCode := "", destinationCity := "",
     gate := "", remarks := "",
     scheduledDeparture := { unix := 0, offset := 0 },
     estimatedDeparture := none }⟩

/-- `models.Flight.GetDestination` (part_003). -/
def Flight.getDestination (f : Flight) : String :=
  if f.destinationCity ≠ "" then f.destinationCode ++ " " ++ f.destinationCity
  else f.destinationCode

/-- `models.Flight.GetStatusColor` (part_003). -/
def Flight.getStatusColor (f : Flight) : String :=
  match f.status with
  | .onTime => "green"
  | .delayed => "orange"
  | .taxiingLeftGate => "yellow"
  | .taxiingDelayed => "orange"
  | .cancelled => "red"

/-! ## Animation engine (part_001) -/

/-- `ui.CharAnimationState` (part_001). -/
inductive CharAnimationState where
  | stable | blinking | complete
  deriving Repr, DecidableEq

/-- `ui.CharAnimation` (part_001).  `startTime` is the animation clock
in milliseconds; the Go zero value `time.Time{}` is modelled as `0`. -/
structure CharAnimation where
  oldChar : Char
  newChar : Char
  state : CharAnimationState
  blinkPhase : Int
  startTime : Int
  deriving Repr, DecidableEq

/-- `ui.AnimatedText` (part_001).  A `none` entry of `chars` is a Go
nil `*CharAnimation`. -/
structure AnimatedText where
  oldText : String
  newText : String
  chars : List (Option CharAnimation)
  maxLength : Nat
  deriving Repr, DecidableEq

/-- `ui.NewAnimatedText` (part_001). -/
def newAnimatedText (maxLength : Nat) : AnimatedText :=
  { oldText := "", newText := "", chars := List.replicate maxLength none,
    maxLength := maxLength }

/-- The pad-or-truncate normalization that `AnimatedText.Update`
applies to both the incoming text and the stored previous text. -/
def normalizeText (w : Nat) (s : String) : String :=
  if s.length > w then ⟨s.data.take w⟩
  else ⟨s.data ++ List.replicate (w - s.length) ' '⟩

/-- `ui.AnimatedText.Update` (part_001): normalizes the incoming text
and the stored old text to `maxLength`, creates missing cells, and
puts every cell whose character changed into `Blinking` with the
animation start stamped at `now`.  The per-index loop `for i := 0;
i < at.MaxLength; i++` is modelled by `mapIdx` guarded on
`i < maxLength`; the guard is always true under the program's
invariant `chars.length = maxLength`. -/
def AnimatedText.update (at_ : AnimatedText) (now : Int) (text : String) : AnimatedText :=
  let newText := normalizeText at_.maxLength text
  let oldText := normalizeText at_.maxLength at_.oldText
  let chars := at_.chars.mapIdx fun i c =>
    if i < at_.maxLength then
      let oldChar := oldText.data.getD i ' '
      let newChar := newText.data.getD i ' '
      let c0 : Option CharAnimation :=
        match c with
        | none => some { oldChar := oldChar, newChar := newChar,
                         state := .stable, blinkPhase := 0, startTime := 0 }
        | some ca => some ca
      if oldChar ≠ newChar then
        some { oldChar := oldChar, newChar := newChar, state := .blinking,
               blinkPhase := 0, startTime := now }
      else c0
    else c
  { at_ with newText := newText, chars := chars, oldText := newText }

/-- One cell's step of `ui.AnimatedText.Tick` (part_001).  The elapsed
time is `now - startTime` milliseconds; Go's `int64` division and
modulus truncate toward zero (`Int.tdiv`/`Int.tmod`). -/
def tickCell (now : Int) (c : Option CharAnimation) : Option CharAnimation :=
  match c with
  | none => none
  | some ca =>
    if ca.state = .blinking then
      let elapsed := now - ca.startTime
      let ca := { ca with blinkPhase := (elapsed.tdiv 100).tmod 2 }
      if elapsed > 300 then some { ca with state := .complete } else some ca
    else if ca.state = .complete then
      some { ca with state := .stable }
    else some ca

/-- `ui.AnimatedText.Tick` (part_001). -/
def AnimatedText.tick (at_ : AnimatedText) (now : Int) : AnimatedText :=
  { at_ with chars := at_.chars.map (tickCell now) }

/-- One cell's contribution to `ui.AnimatedText.Render` (part_001):
a nil cell renders as a blank; a `Blinking` cell shows the solid or
light block depending on `blinkPhase`; otherwise the new character. -/
def renderCell (c : Option CharAnimation) : Char :=
  match c with
  | none => ' '
  | some ca =>
    match ca.state with
    | .blinking => if ca.blinkPhase = 0 then '█' else '░'
    | .complete => ca.newChar
    | .stable => ca.newChar

/-- `ui.AnimatedText.Render` (part_001).  Go allocates a rune buffer of
`MaxLength` and fills slot `i` from cell `i`; under the program
invariant `chars.length = maxLength` this is exactly a map over the
cells. -/
def AnimatedText.render (at_ : AnimatedText) : String :=
  ⟨at_.chars.map renderCell⟩

/-- `ui.AnimatedText.IsAnimating` (part_001). -/
def AnimatedText.isAnimating (at_ : AnimatedText) : Bool :=
  at_.chars.any fun c =>
    match c with
    | some ca => ca.state = .blinking
    | none => false

/-! ## FlightRow (src/ui/flight_row.go) -/

/-- `ui.FlightRow` (flight_row.go).  The Go `*models.Flight` pointer is
an `Option Flight`; `none` is the blank filler row. -/
structure FlightRow where
  flight : Option Flight
  statusAnim : AnimatedText
  flightNumAnim : AnimatedText
  timeAnim : AnimatedText
  destinationAnim : AnimatedText
  gateAnim : AnimatedText
  remarksAnim : AnimatedText
  deriving Repr, DecidableEq

/-- `ui.getStatusChar` (flight_row.go).  The Go `default: return " "`
branch is unreachable: the `FlightStatus` enum has exactly these five
values. -/
def getStatusChar : FlightStatus → String
  | .onTime => "*"
  | .delayed => "!"
  | .taxiingLeftGate => ">"
  | .taxiingDelayed => ">"
  | .cancelled => "X"

/-- `ui.truncate` (flight_row.go). -/
def truncate (s : String) (maxLen : Nat) : String :=
  if s.length ≤ maxLen then s else ⟨s.data.take maxLen⟩

/-- The gate display string derived in `NewFlightRow`/`FlightRow.Update`
(flight_row.go): truncated to 6, replaced by five blanks when empty. -/
def deriveGate (f : Flight) : String :=
  let gate := truncate f.gate 6
  if gate = "" then "     " else gate

/-- The six display strings `FlightRow.Update` derives from a snapshot
(flight_row.go lines 62-87). -/
def deriveStatusText (f : Flight) : String := getStatusChar f.status

def deriveFlightNumText (f : Flight) : String := truncate f.flightNumber 8

def deriveTimeText (f : Flight) : String := f.scheduledDeparture.format1504

def deriveDestText (f : Flight) : String := truncate f.getDestination 20

def deriveRemarksText (f : Flight) : String := truncate f.remarks 20

/-- `ui.FlightRow.Update` (flight_row.go): replaces the snapshot and
re-updates all six animated fields with the derived display strings. -/
def FlightRow.update (fr : FlightRow) (now : Int) (f : Flight) : FlightRow :=
  { flight := some f
    statusAnim := fr.statusAnim.update now (deriveStatusText f)
    flightNumAnim := fr.flightNumAnim.update now (deriveFlightNumText f)
    timeAnim := fr.timeAnim.update now (deriveTimeText f)
    destinationAnim := fr.destinationAnim.update now (deriveDestText f)
    gateAnim := fr.gateAnim.update now (deriveGate f)
    remarksAnim := fr.remarksAnim.update now (deriveRemarksText f) }

/-- `ui.NewFlightRow` (flight_row.go): six fixed-width fields
(1/8/8/20/6/20), seeded from the snapshot when one is given. -/
def newFlightRow (now : Int) (flight : Option Flight) : FlightRow :=
  let row : FlightRow :=
    { flight := flight
      statusAnim := newAnimatedText 1
      flightNumAnim := newAnimatedText 8
      timeAnim := newAnimatedText 8
      destinationAnim := newAnimatedText 20
      gateAnim := newAnimatedText 6
      remarksAnim := newAnimatedText 20 }
  match flight with
  | none => row
  | some f => { row.update now f with flight := flight }

/-- `ui.FlightRow.Tick` (flight_row.go). -/
def FlightRow.tick (fr : FlightRow) (now : Int) : FlightRow :=
  { fr with
    statusAnim := fr.statusAnim.tick now
    flightNumAnim := fr.flightNumAnim.tick now
    timeAnim := fr.timeAnim.tick now
    destinationAnim := fr.destinationAnim.tick now
    gateAnim := fr.gateAnim.tick now
    remarksAnim := fr.remarksAnim.tick now }

/-- `ui.FlightRow.Render` (flight_row.go), with the lipgloss styling
modelled as the identity on text (colors are out of scope, spec §1).
A nil snapshot renders as the 68-blank filler line. -/
def FlightRow.render (fr : FlightRow) : String :=
  match fr.flight with
  | none => ⟨List.replicate 68 ' '⟩
  | some _ =>
    fr.statusAnim.render ++ " " ++ fr.flightNumAnim.render ++ " " ++
      fr.timeAnim.render ++ " " ++ fr.destinationAnim.render ++ " " ++
      fr.gateAnim.render ++ " " ++ fr.remarksAnim.render

/-! ## Go `sort.Slice` (standard library `sort` package, pdqsort)

`Board.UpdateFlights` sorts with `sort.Slice`, which runs
`pdqsort_func(data, 0, length, bits.Len(uint(length)))` from the Go
standard library's `sort/zsortfunc.go`.  The slice is modelled as a
`List α`, an index as `Int` (Go `int`), and `data.Less`/`data.Swap`
as reads/writes through `geti`/`lswap`.  Out-of-range reads and
writes (which would panic in Go and never happen on the paths the
program exercises) read `default` / write nothing. -/

section GoSort

variable {α : Type} [Inhabited α] (less : α → α → Bool)

/-- Read `data[i]` (Go would panic out of range). -/
def geti (l : List α) (i : Int) : α :=
  if 0 ≤ i then l.getD i.toNat default else default

/-- Write `data[i] = x` (Go would panic out of range). -/
def seti (l : List α) (i : Int) (x : α) : List α :=
  if 0 ≤ i then l.set i.toNat x else l

/-- `data.Swap(i, j)`. -/
def lswap (l : List α) (i j : Int) : List α :=
  let vi := geti l i
  let vj := geti l j
  seti (seti l i vj) j vi

/-- `data.Less(i, j)`. -/
def lless (l : List α) (i j : Int) : Bool :=
  less (geti l i) (geti l j)

/-
Every Go loop below is written as structural recursion on an explicit
`fuel : Nat`; the caller passes the loop's iteration bound (its
termination measure), so the `fuel = 0` base case is never the one
that ends the loop and the function computes exactly what the Go loop
computes.
-/

/-- Inner loop of `insertionSort_func`:
`for j := i; j > a && data.Less(j, j-1); j-- { data.Swap(j, j-1) }`. -/
def insSortInner (a : Int) : Nat → List α → Int → List α
  | 0, l, _ => l
  | fuel + 1, l, j =>
    if a < j ∧ lless less l j (j - 1) = true then
      insSortInner a fuel (lswap l j (j - 1)) (j - 1)
    else l

/-- Outer loop of `insertionSort_func`: `for i := a + 1; i < b; i++`. -/
def insSortOuter (a b : Int) : Nat → List α → Int → List α
  | 0, l, _ => l
  | fuel + 1, l, i =>
    if i < b then
      insSortOuter a b fuel (insSortInner less a (i - a).toNat l i) (i + 1)
    else l

/-- `insertionSort_func(data, a, b)` (sort/zsortfunc.go). -/
def insertionSortGo (l : List α) (a b : Int) : List α :=
  insSortOuter less a b (b - a).toNat l (a + 1)

/-- Loop body of `siftDown_func` (the root index strictly increases
toward `hi`, so `(hi - lo).toNat` iterations always suffice). -/
def siftDownLoop (hi first : Int) : Nat → List α → Int → List α
  | 0, l, _ => l
  | fuel + 1, l, root =>
    let child := 2 * root + 1
    if child ≥ hi then l
    else
      let child :=
        if child + 1 < hi ∧ lless less l (first + child) (first + child + 1) = true
        then child + 1 else child
      if lless less l (first + root) (first + child) = false then l
      else siftDownLoop hi first fuel (lswap l (first + root) (first + child)) child

/-- `siftDown_func(data, lo, hi, first)` (sort/zsortfunc.go). -/
def siftDownGo (l : List α) (lo hi first : Int) : List α :=
  siftDownLoop less hi first (hi - lo).toNat l lo

/-- Heap-building loop of `heapSort_func`:
`for i := (hi-1)/2; i >= 0; i--`, counting `i = n-1, …, 0` when
called with fuel `n`. -/
def heapBuildLoop (hi first : Int) : Nat → List α → List α
  | 0, l => l
  | n + 1, l => heapBuildLoop hi first n (siftDownGo less l (n : Int) hi first)

/-- Pop loop of `heapSort_func`: `for i := hi - 1; i >= 0; i--`:
`Swap(first, first+i); siftDown(lo, i, first)`. -/
def heapPopLoop (first : Int) : Nat → List α → List α
  | 0, l => l
  | n + 1, l =>
    heapPopLoop first n
      (siftDownGo less (lswap l first (first + (n : Int))) 0 (n : Int) first)

/-- `heapSort_func(data, a, b)` (sort/zsortfunc.go). -/
def heapSortGo (l : List α) (a b : Int) : List α :=
  let first := a
  let hi := b - a
  heapPopLoop less first hi.toNat
    (heapBuildLoop less hi first ((hi - 1).tdiv 2 + 1).toNat l)

/-- `reverseRange_func(data, a, b)` (sort/zsortfunc.go). -/
def reverseRangeLoop : Nat → List α → Int → Int → List α
  | 0, l, _, _ => l
  | fuel + 1, l, i, j =>
    if i < j then reverseRangeLoop fuel (lswap l i j) (i + 1) (j - 1) else l

def reverseRangeGo (l : List α) (a b : Int) : List α :=
  reverseRangeLoop (b - 1 - a).toNat l a (b - 1)

/-- `order2_func(data, a, b, &swaps)` (sort/zsortfunc.go). -/
def order2Go (l : List α) (a b swaps : Int) : Int × Int × Int :=
  if lless less l b a then (b, a, swaps + 1) else (a, b, swaps)

/-- `median_func(data, a, b, c, &swaps)` (sort/zsortfunc.go). -/
def medianGo (l : List α) (a b c swaps : Int) : Int × Int :=
  let (a, b, swaps) := order2Go less l a b swaps
  let (b, _, swaps) := order2Go less l b c swaps
  let (_, b, swaps) := order2Go less l a b swaps
  (b, swaps)

/-- `medianAdjacent_func(data, i, &swaps)` (sort/zsortfunc.go). -/
def medianAdjacentGo (l : List α) (i swaps : Int) : Int × Int :=
  medianGo less l (i - 1) i (i + 1) swaps

/-- `sortedHint` (sort/zsortfunc.go). -/
inductive SortedHint where
  | unknown | increasing | decreasing
  deriving Repr, DecidableEq

/-- `choosePivot_func(data, a, b)` (sort/zsortfunc.go); constants
`shortestNinther = 50`, `maxSwaps = 4*3 = 12`. -/
def choosePivotGo (l : List α) (a b : Int) : Int × SortedHint :=
  let length := b - a
  let i0 := a + (length.tdiv 4) * 1
  let j0 := a + (length.tdiv 4) * 2
  let k0 := a + (length.tdiv 4) * 3
  let (j1, swaps) :=
    if 8 ≤ length then
      let (i1, j1, k1, s1) :=
        if 50 ≤ length then
          let (i1, s) := medianAdjacentGo less l i0 0
          let (j1, s) := medianAdjacentGo less l j0 s
          let (k1, s) := medianAdjacentGo less l k0 s
          (i1, j1, k1, s)
        else (i0, j0, k0, (0 : Int))
      medianGo less l i1 j1 k1 s1
    else (j0, (0 : Int))
  if swaps = 0 then (j1, .increasing)
  else if swaps = 12 then (j1, .decreasing)
  else (j1, .unknown)

/-- `bits.Len` on a nonnegative value (number of binary digits). -/
def bitsLen (n : Nat) : Nat :=
  if n = 0 then 0 else n.log2 + 1

/-- One step of the `xorshift` generator (sort/sort.go), on `uint64`
modelled as `Nat` reduced mod `2^64`. -/
def xorshiftNext (r : Nat) : Nat :=
  let r := (r ^^^ (r <<< 13)) % 2 ^ 64
  let r := (r ^^^ (r >>> 7)) % 2 ^ 64
  let r := (r ^^^ (r <<< 17)) % 2 ^ 64
  r

/-- `breakPatterns_func(data, a, b)` (sort/zsortfunc.go): three
pseudo-random swaps around the middle, seeded from the length. -/
def breakPatternsGo (l : List α) (a b : Int) : List α :=
  let length := b - a
  if 8 ≤ length then
    let lengthN := length.toNat
    let modulus : Nat := 1 <<< bitsLen lengthN
    let idx := a + (length.tdiv 4) * 2 - 1
    let step := fun (l : List α) (i : Int) (rv : Nat) =>
      let other : Int := (rv &&& (modulus - 1) : Nat)
      let other := if other ≥ length then other - length else other
      lswap l (idx + i) (a + other)
    let r1 := xorshiftNext lengthN
    let r2 := xorshiftNext r1
    let r3 := xorshiftNext r2
    step (step (step l 0 r1) 1 r2) 2 r3
  else l

/-- Scan of `partialInsertionSort_func`:
`for i < b && !data.Less(i, i-1) { i++ }`. -/
def scanAscLoop (b : Int) (l : List α) : Nat → Int → Int
  | 0, i => i
  | fuel + 1, i =>
    if i < b ∧ lless less l i (i - 1) = false then scanAscLoop b l fuel (i + 1)
    else i

/-- Left-shift loop of `partialInsertionSort_func`:
`for j := i - 1; j >= a+1; j--`. -/
def shiftLeftLoop (a : Int) : Nat → List α → Int → List α
  | 0, l, _ => l
  | fuel + 1, l, j =>
    if a + 1 ≤ j ∧ lless less l j (j - 1) = true then
      shiftLeftLoop a fuel (lswap l j (j - 1)) (j - 1)
    else l

/-- Right-shift loop of `partialInsertionSort_func`:
`for j := i + 1; j < b; j++`. -/
def shiftRightLoop (b : Int) : Nat → List α → Int → List α
  | 0, l, _ => l
  | fuel + 1, l, j =>
    if j < b ∧ lless less l j (j - 1) = true then
      shiftRightLoop b fuel (lswap l j (j - 1)) (j + 1)
    else l

/-- Outer loop of `partialInsertionSort_func` (`maxSteps = 5`,
`shortestShifting = 50`); returns the data and the boolean result. -/
def partialInsSortLoop (a b : Int) : Nat → List α → Int → List α × Bool
  | 0, l, _ => (l, false)
  | steps + 1, l, i =>
    let i := scanAscLoop less b l (b - i).toNat i
    if i = b then (l, true)
    else if b - a < 50 then (l, false)
    else
      let l := lswap l i (i - 1)
      let l := if 2 ≤ i - a then shiftLeftLoop less a (i - 1 - a).toNat l (i - 1) else l
      let l := if 2 ≤ b - i then shiftRightLoop less b (b - (i + 1)).toNat l (i + 1) else l
      partialInsSortLoop a b steps l i

/-- `partialInsertionSort_func(data, a, b)` (sort/zsortfunc.go). -/
def partialInsertionSortGo (l : List α) (a b : Int) : List α × Bool :=
  partialInsSortLoop less a b 5 l (a + 1)

/-- `for i <= j && data.Less(i, a) { i++ }` (partition_func). -/
def scanLtLoop (aIdx j : Int) (l : List α) : Nat → Int → Int
  | 0, i => i
  | fuel + 1, i =>
    if i ≤ j ∧ lless less l i aIdx = true then scanLtLoop aIdx j l fuel (i + 1)
    else i

/-- `for i <= j && !data.Less(j, a) { j-- }` (partition_func). -/
def scanGeLoop (aIdx i : Int) (l : List α) : Nat → Int → Int
  | 0, j => j
  | fuel + 1, j =>
    if i ≤ j ∧ lless less l j aIdx = false then scanGeLoop aIdx i l fuel (j - 1)
    else j

/-- Main loop of `partition_func`; returns the data and the final
value of `j`. -/
def partitionLoop (aIdx : Int) : Nat → List α → Int → Int → List α × Int
  | 0, l, _, j => (l, j)
  | fuel + 1, l, i, j =>
    let i' := scanLtLoop less aIdx j l (j + 1 - i).toNat i
    let j' := scanGeLoop less aIdx i' l (j + 1 - i').toNat j
    if i' > j' then (l, j')
    else partitionLoop aIdx fuel (lswap l i' j') (i' + 1) (j' - 1)

/-- `partition_func(data, a, b, pivot)` (sort/zsortfunc.go); returns
the data, the new pivot position, and `alreadyPartitioned`. -/
def partitionGo (l : List α) (a b pivot : Int) : List α × Int × Bool :=
  let l := lswap l a pivot
  let i := scanLtLoop less a (b - 1) l (b - 1 + 1 - (a + 1)).toNat (a + 1)
  let j := scanGeLoop less a i l (b - 1 + 1 - i).toNat (b - 1)
  if i > j then (lswap l j a, j, true)
  else
    let pl := partitionLoop less a ((j - 1) + 1 - (i + 1)).toNat (lswap l i j)
      (i + 1) (j - 1)
    (lswap pl.1 pl.2 a, pl.2, false)

/-- `for i <= j && !data.Less(a, i) { i++ }` (partitionEqual_func). -/
def scanNotLtLoop (aIdx j : Int) (l : List α) : Nat → Int → Int
  | 0, i => i
  | fuel + 1, i =>
    if i ≤ j ∧ lless less l aIdx i = false then scanNotLtLoop aIdx j l fuel (i + 1)
    else i

/-- `for i <= j && data.Less(a, j) { j-- }` (partitionEqual_func). -/
def scanGtLoop (aIdx i : Int) (l : List α) : Nat → Int → Int
  | 0, j => j
  | fuel + 1, j =>
    if i ≤ j ∧ lless less l aIdx j = true then scanGtLoop aIdx i l fuel (j - 1)
    else j

/-- Main loop of `partitionEqual_func`; returns the data and the final
value of `i`. -/
def partitionEqualLoop (aIdx : Int) : Nat → List α → Int → Int → List α × Int
  | 0, l, i, _ => (l, i)
  | fuel + 1, l, i, j =>
    let i' := scanNotLtLoop less aIdx j l (j + 1 - i).toNat i
    let j' := scanGtLoop less aIdx i' l (j + 1 - i').toNat j
    if i' > j' then (l, i')
    else partitionEqualLoop aIdx fuel (lswap l i' j') (i' + 1) (j' - 1)

/-- `partitionEqual_func(data, a, b, pivot)` (sort/zsortfunc.go). -/
def partitionEqualGo (l : List α) (a b pivot : Int) : List α × Int :=
  let l := lswap l a pivot
  partitionEqualLoop less a ((b - 1) + 1 - (a + 1)).toNat l (a + 1) (b - 1)

/-- `pdqsort_func(data, a, b, limit)` (sort/zsortfunc.go).  The Go
`for` loop and the recursive calls are fuel steps; every iteration
and every recursive call strictly shrinks `b - a`, so fuel
`(b - a) + 1` at the entry point is never exhausted.  A fresh
invocation starts with `wasBalanced = wasPartitioned = true`. -/
def pdqsortLoop : Nat → List α → Int → Int → Int → Bool → Bool → List α
  | 0, l, _, _, _, _, _ => l
  | fuel + 1, l, a, b, limit, wasBalanced, wasPartitioned =>
    let length := b - a
    if length ≤ 12 then insertionSortGo less l a b
    else if limit = 0 then heapSortGo less l a b
    else
      let l1 := if wasBalanced = false then breakPatternsGo l a b else l
      let limit1 := if wasBalanced = false then limit - 1 else limit
      let ph := choosePivotGo less l1 a b
      let l2 := if ph.2 = SortedHint.decreasing then reverseRangeGo l1 a b else l1
      let pivot := if ph.2 = SortedHint.decreasing then (b - 1) - (ph.1 - a) else ph.1
      let hint := if ph.2 = SortedHint.decreasing then SortedHint.increasing else ph.2
      let pis :=
        if wasBalanced = true ∧ wasPartitioned = true ∧ hint = SortedHint.increasing
        then partialInsertionSortGo less l2 a b
        else (l2, false)
      if pis.2 = true then pis.1
      else if a > 0 ∧ lless less pis.1 (a - 1) pivot = false then
        let pe := partitionEqualGo less pis.1 a b pivot
        pdqsortLoop fuel pe.1 pe.2 b limit1 wasBalanced wasPartitioned
      else
        let pt := partitionGo less pis.1 a b pivot
        let mid := pt.2.1
        let leftLen := mid - a
        let rightLen := b - mid
        let balanceThreshold := length.tdiv 8
        let wasBalanced2 := decide (min leftLen rightLen ≥ balanceThreshold)
        if leftLen < rightLen then
          pdqsortLoop fuel (pdqsortLoop fuel pt.1 a mid limit1 true true)
            (mid + 1) b limit1 wasBalanced2 pt.2.2
        else
          pdqsortLoop fuel (pdqsortLoop fuel pt.1 (mid + 1) b limit1 true true)
            a mid limit1 wasBalanced2 pt.2.2

/-- `sort.Slice(x, less)` (sort/slice.go):
`pdqsort_func(data, 0, length, bits.Len(uint(length)))`. -/
def sortSliceGo (l : List α) : List α :=
  pdqsortLoop less (l.length + 1) l 0 (l.length : Int) (bitsLen l.length : Int) true true

end GoSort

/-! ## Board (src/ui/board.go) -/

/-- The comparison `UpdateFlights` passes to `sort.Slice`:
`flights[i].ScheduledDeparture.Before(flights[j].ScheduledDeparture)`. -/
def lessFlight (f g : Flight) : Bool :=
  f.scheduledDeparture.before g.scheduledDeparture

/-- `ui.Board` (board.go).  `AirportTZ` (`*time.Location`) is modelled
as an optional fixed offset in seconds (`none` = Go nil); the
`Styles` field is pure presentation constants and is omitted. -/
structure Board where
  flights : List FlightRow
  currentPage : Int
  totalPages : Int
  airportCode : String
  airportTZ : Option Int
  flightsPerPage : Int
  error : String
  deriving Repr, DecidableEq

/-- `ui.NewBoard` (board.go). -/
def newBoard (airportCode : String) (airportTZ : Option Int)
    (flightsPerPage : Int) : Board :=
  { flights := [], currentPage := 0, totalPages := 1,
    airportCode := airportCode, airportTZ := airportTZ,
    flightsPerPage := flightsPerPage, error := "" }

/-- The per-snapshot conversion loop of `UpdateFlights` (board.go lines
40-54): convert the scheduled (and, when present, estimated) departure
into the board's timezone, and for a delayed flight with an estimated
time synthesize the `"Delayed EST: HH:MM"` remark from the
already-converted estimate. -/
def convertFlight (tz : Option Int) (f : Flight) : Flight :=
  match tz with
  | none => f
  | some off =>
    let f := { f with scheduledDeparture := f.scheduledDeparture.inTZ off }
    match f.estimatedDeparture with
    | none => f
    | some est =>
      let localEst := est.inTZ off
      let f := { f with estimatedDeparture := some localEst }
      if f.status = FlightStatus.delayed then
        { f with remarks := "Delayed EST: " ++ localEst.format1504 }
      else f

/-- The `existingMap` built by `UpdateFlights` (board.go lines 62-68)
at the pointer level: a Go map from flight number to `*FlightRow`,
with a pointer modelled as the row's position in the board's current
row list.  Later insertions overwrite earlier ones (the recursion
prefers the tail); rows with a nil snapshot are skipped.  `base` is
the position of the first row of the remaining list. -/
def goMapRowsIdxFrom : Nat → List FlightRow → String → Option Nat
  | _, [], _ => none
  | base, row :: rest, k =>
    match goMapRowsIdxFrom (base + 1) rest k with
    | some j => some j
    | none =>
      match row.flight with
      | some f => if k = f.flightNumber then some base else none
      | none => none

/-- The position in `rows` of the row the Go map returns for `k`. -/
def goMapRowsIdx (rows : List FlightRow) (k : String) : Option Nat :=
  goMapRowsIdxFrom 0 rows k

/-- `ui.Board.updatePagination` (board.go). -/
def Board.updatePagination (b : Board) : Board :=
  let flightsPerPage := if b.flightsPerPage ≤ 0 then 10 else b.flightsPerPage
  let totalFlights : Int := b.flights.length
  if totalFlights = 0 then { b with totalPages := 1, currentPage := 0 }
  else
    let totalPages := (totalFlights + flightsPerPage - 1).tdiv flightsPerPage
    let currentPage :=
      if b.currentPage ≥ totalPages then totalPages - 1 else b.currentPage
    let currentPage := if currentPage < 0 then 0 else currentPage
    { b with totalPages := totalPages, currentPage := currentPage }

/-- One iteration of the reconciliation loop of `UpdateFlights`
(board.go lines 71-85).  The state is the cell store — the board's old
rows, updated in place as the loop hits them, followed by the rows
created by earlier iterations — together with the positions appended
to `newRows` so far.  A snapshot whose flight number is in the map
updates that shared cell in place (a repeated flight number updates
the *same* cell again and appends its position again, exactly as Go's
shared `*FlightRow` is); an unmatched snapshot allocates a fresh
cell. -/
def updateRowsStep (idxMap : String → Option Nat) (now : Int)
    (st : List FlightRow × List Nat) (flight : Flight) :
    List FlightRow × List Nat :=
  match idxMap flight.flightNumber with
  | some i =>
    (st.1.set i ((st.1.getD i (newFlightRow 0 none)).update now flight),
     st.2 ++ [i])
  | none =>
    (st.1 ++ [newFlightRow now (some flight)], st.2 ++ [st.1.length])

/-- `ui.Board.UpdateFlights` (board.go): convert each snapshot, sort by
scheduled departure with `sort.Slice`, reconcile by flight number
against the existing rows through the pointer map (an existing row is
updated in place and its position appended — several times, if a
flight number repeats in the snapshot list — otherwise a new row is
created), replace the row list with the cells the appended positions
name after the whole loop, recompute pagination.  The caller's slice
is mutated in place in Go; `updateFlightsSlice` below is the value of
that slice after the call. -/
def Board.updateFlights (b : Board) (now : Int) (flights : List Flight) : Board :=
  let sorted := sortSliceGo lessFlight (flights.map (convertFlight b.airportTZ))
  let res := sorted.foldl (updateRowsStep (goMapRowsIdx b.flights) now)
    (b.flights, [])
  let newRows := res.2.map fun i => res.1.getD i (newFlightRow 0 none)
  Board.updatePagination { b with flights := newRows }

/-- The caller-visible content of the snapshot slice after
`UpdateFlights` returns: `UpdateFlights` overwrites the elements in
place (timezone conversion, remark synthesis) and reorders them with
`sort.Slice`. -/
def updateFlightsSlice (b : Board) (flights : List Flight) : List Flight :=
  sortSliceGo lessFlight (flights.map (convertFlight b.airportTZ))

/-- `ui.Board.NextPage` (board.go); Go's `%` is truncated modulus. -/
def Board.nextPage (b : Board) : Board :=
  let b := b.updatePagination
  { b with currentPage := (b.currentPage + 1).tmod b.totalPages }

/-- `ui.Board.GetCurrentPageFlights` (board.go): exactly
`flightsPerPage` entries, real rows first, blank filler rows after.
(`NewFlightRow(nil)` never reads the clock; `0` is passed for it.) -/
def Board.getCurrentPageFlights (b : Board) : List FlightRow :=
  let flightsPerPage := if b.flightsPerPage ≤ 0 then 10 else b.flightsPerPage
  let start := b.currentPage * flightsPerPage
  let «end» := start + flightsPerPage
  let n : Int := b.flights.length
  let actualEnd := if start ≥ n then start else if «end» > n then n else «end»
  let copyCount := if start < n then actualEnd - start else 0
  ((b.flights.drop start.toNat).take copyCount.toNat) ++
    List.replicate (flightsPerPage - copyCount).toNat (newFlightRow 0 none)

/-- `ui.Board.Tick` (board.go). -/
def Board.tick (b : Board) (now : Int) : Board :=
  { b with flights := b.flights.map (fun row => row.tick now) }

/-- `%-ws` of `fmt.Sprintf`: left-justified space padding. -/
def padRight (s : String) (w : Nat) : String :=
  s ++ ⟨List.replicate (w - s.length) ' '⟩

/-- `ui.Board.renderAirportHeader` (board.go), styling dropped. -/
def Board.renderAirportHeader (b : Board) : String :=
  "DEPARTURES - " ++ b.airportCode

/-- `ui.Board.renderHeader` (board.go), styling dropped. -/
def Board.renderHeader (_b : Board) : String :=
  "S" ++ " " ++ padRight "FLIGHT" 8 ++ " " ++ padRight "TIME" 8 ++ " " ++
    padRight "DESTINATION" 20 ++ " " ++ padRight "GATE" 6 ++ " " ++
    padRight "REMARKS" 20

/-- `ui.Board.renderPageInfo` (board.go), styling dropped. -/
def Board.renderPageInfo (b : Board) : String :=
  if b.totalPages ≤ 1 then ""
  else
    let totalFlights : Int := b.flights.length
    let flightsPerPage := if b.flightsPerPage ≤ 0 then 10 else b.flightsPerPage
    let start := b.currentPage * flightsPerPage + 1
    let en0 := (b.currentPage + 1) * flightsPerPage
    let en := if en0 > totalFlights then totalFlights else en0
    "Page " ++ toString (b.currentPage + 1) ++ "/" ++ toString b.totalPages ++
      " (" ++ toString start ++ "-" ++ toString en ++ " of " ++
      toString totalFlights ++ ")"

/-- `ui.Board.Render` (board.go): airport header, the error banner when
an error string is set, the column header, the current page's rows,
and the page indicator.  `lipgloss.JoinVertical`/styling are modelled
as a plain newline join of the sections. -/
def Board.render (b : Board) : String :=
  let sections :=
    [b.renderAirportHeader] ++
    (if b.error ≠ "" then ["ERROR: " ++ b.error] else []) ++
    [b.renderHeader] ++
    (b.getCurrentPageFlights.map FlightRow.render) ++
    [b.renderPageInfo]
  String.intercalate "\n" sections

/-- `ui.Board.SetAirport` (board.go). -/
def Board.setAirport (b : Board) (airportCode : String)
    (airportTZ : Option Int) : Board :=
  { b with airportCode := airportCode, airportTZ := airportTZ,
           currentPage := 0 }

/-- `ui.Board.SetFlightsPerPage` (board.go). -/
def Board.setFlightsPerPage (b : Board) (flightsPerPage : Int) : Board :=
  { b with flightsPerPage := flightsPerPage }

/-! ## The data-refresh message handling (src/main.go) -/

/-- The fields of `main.model` relevant to the data-refresh path
(main.go); the API client, config, and input-mode state are external
collaborators. -/
structure AppModel where
  board : Board
  loading : Bool
  err : Option String
  deriving Repr, DecidableEq

/-- `main.flightsMsg` (main.go): the result delivered back from the
asynchronous fetch; the Go `error` is `none` (nil) or its message
string. -/
structure FlightsMsg where
  flights : List Flight
  err : Option String
  deriving Repr, DecidableEq

/-- The `case flightsMsg` branch of `model.Update` (main.go lines
140-149): on failure only the error string is stored; on success the
error string is cleared and the board is updated. -/
def handleFlightsMsg (m : AppModel) (now : Int) (msg : FlightsMsg) : AppModel :=
  match msg.err with
  | some e =>
    { m with loading := false, err := some e,
             board := { m.board with error := e } }
  | none =>
    { m with loading := false,
             board := Board.updateFlights { m.board with error := "" } now msg.flights }

/-! ## Basic facts about the animation engine -/

theorem normalizeText_length (w : Nat) (s : String) :
    (normalizeText w s).length = w := by
  have hs : s.length = s.data.length := rfl
  unfold normalizeText
  split
  · show (s.data.take w).length = w
    simp [List.length_take]
    omega
  · show (s.data ++ List.replicate (w - s.length) ' ').length = w
    simp
    omega

theorem normalizeText_of_length_eq (w : Nat) (t : String) (h : t.length = w) :
    normalizeText w t = t := by
  unfold normalizeText
  rw [if_neg (by omega)]
  cases t with
  | mk data =>
    simp only [String.length] at h
    simp [h]

theorem normalizeText_idem (w : Nat) (s : String) :
    normalizeText w (normalizeText w s) = normalizeText w s :=
  normalizeText_of_length_eq w _ (normalizeText_length w s)

theorem update_chars_length (at_ : AnimatedText) (now : Int) (s : String) :
    (at_.update now s).chars.length = at_.chars.length := by
  simp [AnimatedText.update]

theorem update_maxLength (at_ : AnimatedText) (now : Int) (s : String) :
    (at_.update now s).maxLength = at_.maxLength := rfl

theorem tick_chars_length (at_ : AnimatedText) (now : Int) :
    (at_.tick now).chars.length = at_.chars.length := by
  simp [AnimatedText.tick]

theorem render_length (at_ : AnimatedText) :
    at_.render.length = at_.chars.length := by
  simp [AnimatedText.render, String.length]

/-- A single animation-engine call: one `Update` or one `Tick`, each
with the clock value observed during the call. -/
inductive ATOp where
  | update (now : Int) (text : String)
  | tick (now : Int)

def applyATOp (at_ : AnimatedText) : ATOp → AnimatedText
  | .update now text => at_.update now text
  | .tick now => at_.tick now

theorem applyATOp_chars_length (at_ : AnimatedText) (op : ATOp) :
    (applyATOp at_ op).chars.length = at_.chars.length := by
  cases op with
  | update now text => exact update_chars_length at_ now text
  | tick now => exact tick_chars_length at_ now

theorem foldl_applyATOp_chars_length (ops : List ATOp) :
    ∀ at_ : AnimatedText, (ops.foldl applyATOp at_).chars.length = at_.chars.length := by
  induction ops with
  | nil => intro at_; rfl
  | cons op rest ih =>
    intro at_
    simpa [List.foldl_cons, applyATOp_chars_length] using ih (applyATOp at_ op)

/-- **C2** (width invariant): an `AnimatedText` built with capacity `w`
renders to a string of exactly `w` characters after any sequence of
`Update` and `Tick` calls with arbitrary texts and clock values, and
before any call at all it renders as `w` blanks (every unset/nil cell
renders as a blank). -/
theorem animatedText_width_invariant (w : Nat) (ops : List ATOp) :
    ((ops.foldl applyATOp (newAnimatedText w)).render).length = w ∧
    (newAnimatedText w).render = ⟨List.replicate w ' '⟩ := by
  constructor
  · rw [render_length, foldl_applyATOp_chars_length]
    simp [newAnimatedText]
  · simp [newAnimatedText, AnimatedText.render, List.map_replicate, renderCell]

/-- **C3** (animation convergence): if a tick arrives whose clock is
more than 300 ms past the start of every blinking cell's animation,
then after that tick the field is no longer animating, every cell
that was blinking is `Complete` and already renders its new character
(not a blink glyph), and the next tick takes it to `Stable`. -/
theorem animation_convergence (at_ : AnimatedText) (now now2 : Int)
    (hall : ∀ c ∈ at_.chars, ∀ ca, c = some ca →
      ca.state = CharAnimationState.blinking → 300 < now - ca.startTime) :
    (at_.tick now).isAnimating = false ∧
    ∀ (i : Nat) (ca : CharAnimation), at_.chars[i]? = some (some ca) →
      ca.state = CharAnimationState.blinking →
      (at_.tick now).chars[i]? = some (some
        { ca with blinkPhase := ((now - ca.startTime).tdiv 100).tmod 2,
                  state := CharAnimationState.complete }) ∧
      (at_.tick now).render.data[i]? = some ca.newChar ∧
      ((at_.tick now).tick now2).chars[i]? = some (some
        { ca with blinkPhase := ((now - ca.startTime).tdiv 100).tmod 2,
                  state := CharAnimationState.stable }) := by
  constructor
  · rw [AnimatedText.isAnimating, List.any_eq_false]
    intro x hx
    simp only [AnimatedText.tick, List.mem_map] at hx
    obtain ⟨c, hc, rfl⟩ := hx
    cases c with
    | none => simp [tickCell]
    | some ca =>
      by_cases hb : ca.state = CharAnimationState.blinking
      · have h300 := hall _ hc ca rfl hb
        simp [tickCell, hb, h300]
      · by_cases hcpl : ca.state = CharAnimationState.complete
        · simp [tickCell, hb, hcpl]
        · simp [tickCell, hb, hcpl]
  · intro i ca hi hb
    have hmem : (some ca) ∈ at_.chars := List.getElem?_mem hi
    have h300 := hall _ hmem ca rfl hb
    have htick : tickCell now (some ca) = some
        { ca with blinkPhase := ((now - ca.startTime).tdiv 100).tmod 2,
                  state := CharAnimationState.complete } := by
      simp [tickCell, hb, h300]
    refine ⟨?_, ?_, ?_⟩
    · simp [AnimatedText.tick, List.getElem?_map, hi, htick]
    · simp only [AnimatedText.render, AnimatedText.tick]
      rw [List.getElem?_map, List.getElem?_map, hi]
      simp [htick, renderCell]
    · simp only [AnimatedText.tick, List.getElem?_map, hi]
      simp [tickCell, hb, h300]

/-- Witness for C3: a two-cell field updated at clock 0 (both cells
blinking), ticked at clock 301 and again at 302. -/
theorem animation_convergence_witness :
    (∀ c ∈ ((newAnimatedText 2).update 0 "ab").chars, ∀ ca, c = some ca →
      ca.state = CharAnimationState.blinking → 300 < 301 - ca.startTime) ∧
    (((newAnimatedText 2).update 0 "ab").tick 301).isAnimating = false := by
  refine ⟨by decide, (animation_convergence ((newAnimatedText 2).update 0 "ab")
    301 302 (by decide)).1⟩

/-! ## Pagination -/

/-- The effective page size: the configured `FlightsPerPage`, or the
safe default 10 when the configured value is non-positive (the local
`flightsPerPage` recomputed at the top of `updatePagination`,
`GetCurrentPageFlights` and `renderPageInfo`). -/
def effPageSize (b : Board) : Int :=
  if b.flightsPerPage ≤ 0 then 10 else b.flightsPerPage

theorem effPageSize_pos (b : Board) : 0 < effPageSize b := by
  unfold effPageSize
  split <;> omega

/-- The pagination invariant of the spec:
`totalPages = max(1, ⌈rowCount / pageSize⌉)` (with the effective page
size; `n ⌈/⌉ m` is the ceiling of `n / m` for `m > 0`) and
`0 ≤ currentPageIndex < totalPages`. -/
def pageInvariant (b : Board) : Prop :=
  b.totalPages = (max 1 (b.flights.length ⌈/⌉ (effPageSize b).toNat) : Nat) ∧
  0 ≤ b.currentPage ∧ b.currentPage < b.totalPages

theorem updatePagination_fields (b : Board) :
    (b.updatePagination).flights = b.flights ∧
    (b.updatePagination).flightsPerPage = b.flightsPerPage ∧
    (b.updatePagination).airportCode = b.airportCode ∧
    (b.updatePagination).airportTZ = b.airportTZ ∧
    (b.updatePagination).error = b.error := by
  by_cases h0 : (b.flights.length : Int) = 0 <;>
    · unfold Board.updatePagination
      simp only [h0, if_pos, if_neg, if_true, if_false]
      simp

/-- Go's `(n + p - 1) / p` (for positive `p`, positive `n`) is the
ceiling of `n / p`. -/
theorem tdiv_eq_ceilDiv (n : Nat) (p : Int) (hp : 0 < p) :
    ((n : Int) + p - 1).tdiv p = (n ⌈/⌉ p.toNat : Nat) := by
  have hpn : p = ((p.toNat : Nat) : Int) := by omega
  rw [Int.tdiv_eq_ediv (by omega) (by omega), Nat.ceilDiv_eq_add_pred_div, hpn]
  have h1 : ((n : Int) + ((p.toNat : Nat) : Int) - 1) =
      ((n + p.toNat - 1 : Nat) : Int) := by omega
  rw [h1]
  norm_cast

theorem zero_ceilDiv (p : Nat) : (0 : Nat) ⌈/⌉ p = 0 := by
  rw [Nat.ceilDiv_eq_add_pred_div]
  rcases Nat.eq_zero_or_pos p with h | h
  · subst h
    simp
  · exact Nat.div_eq_of_lt (by omega)

theorem ceilDiv_ge_one (n p : Nat) (hn : 0 < n) (hp : 0 < p) : 1 ≤ n ⌈/⌉ p := by
  rw [Nat.ceilDiv_eq_add_pred_div]
  rw [Nat.one_le_div_iff hp]
  omega

theorem updatePagination_totalPages (b : Board) :
    (b.updatePagination).totalPages =
      (max 1 (b.flights.length ⌈/⌉ (effPageSize b).toNat) : Nat) := by
  have hpp : (0 : Int) < effPageSize b := effPageSize_pos b
  have hppdef : (if b.flightsPerPage ≤ 0 then (10 : Int) else b.flightsPerPage) =
      effPageSize b := rfl
  unfold Board.updatePagination
  rw [hppdef]
  dsimp only
  by_cases h0 : (b.flights.length : Int) = 0
  · rw [if_pos h0]
    have h0' : b.flights.length = 0 := by exact_mod_cast h0
    show (1 : Int) = _
    rw [h0']
    have hz : (0 : Nat) ⌈/⌉ (effPageSize b).toNat = 0 := by
      rw [Nat.ceilDiv_eq_add_pred_div]
      exact Nat.div_eq_of_lt (by omega)
    rw [hz]
    simp
  · rw [if_neg h0]
    have h0' : 0 < b.flights.length := by
      rcases Nat.eq_zero_or_pos b.flights.length with hz | hz
      · exact absurd (by exact_mod_cast hz) h0
      · exact hz
    show ((b.flights.length : Int) + effPageSize b - 1).tdiv (effPageSize b) = _
    rw [tdiv_eq_ceilDiv _ _ hpp]
    have hmax : max 1 (b.flights.length ⌈/⌉ (effPageSize b).toNat) =
        b.flights.length ⌈/⌉ (effPageSize b).toNat :=
      Nat.max_eq_right (ceilDiv_ge_one _ _ h0' (by omega))
    rw [hmax]

theorem updatePagination_totalPages_pos (b : Board) :
    (1 : Int) ≤ (b.updatePagination).totalPages := by
  rw [updatePagination_totalPages]
  have := le_max_left 1 (b.flights.length ⌈/⌉ (effPageSize b).toNat)
  omega

theorem updatePagination_currentPage (b : Board) :
    0 ≤ (b.updatePagination).currentPage ∧
    (b.updatePagination).currentPage < (b.updatePagination).totalPages ∧
    ((b.updatePagination).totalPages ≤ b.currentPage →
      (b.updatePagination).currentPage = (b.updatePagination).totalPages - 1) := by
  have htp1 : (1 : Int) ≤ (b.updatePagination).totalPages :=
    updatePagination_totalPages_pos b
  unfold Board.updatePagination at htp1 ⊢
  dsimp only at htp1 ⊢
  by_cases h0 : (b.flights.length : Int) = 0
  · rw [if_pos h0] at htp1 ⊢
    dsimp only at htp1 ⊢
    omega
  · rw [if_neg h0] at htp1 ⊢
    dsimp only at htp1 ⊢
    split_ifs at htp1 ⊢ <;> omega

theorem updatePagination_invariant (b : Board) :
    pageInvariant (b.updatePagination) := by
  have htp := updatePagination_totalPages b
  have hfl := (updatePagination_fields b).1
  have hfpp := (updatePagination_fields b).2.1
  have heff : effPageSize (b.updatePagination) = effPageSize b := by
    unfold effPageSize
    rw [hfpp]
  exact ⟨by rw [htp, hfl, heff], (updatePagination_currentPage b).1,
    (updatePagination_currentPage b).2.1⟩

theorem updatePagination_currentPage_eq (b : Board) (h0 : 0 ≤ b.currentPage)
    (h1 : b.currentPage < (b.updatePagination).totalPages) :
    (b.updatePagination).currentPage = b.currentPage := by
  unfold Board.updatePagination at h1 ⊢
  dsimp only at h1 ⊢
  by_cases hz : (b.flights.length : Int) = 0
  · rw [if_pos hz] at h1 ⊢
    dsimp only at h1 ⊢
    omega
  · rw [if_neg hz] at h1 ⊢
    dsimp only at h1 ⊢
    split_ifs at h1 ⊢ <;> omega

theorem Board.ext' (b1 b2 : Board) (h1 : b1.flights = b2.flights)
    (h2 : b1.currentPage = b2.currentPage) (h3 : b1.totalPages = b2.totalPages)
    (h4 : b1.airportCode = b2.airportCode) (h5 : b1.airportTZ = b2.airportTZ)
    (h6 : b1.flightsPerPage = b2.flightsPerPage) (h7 : b1.error = b2.error) :
    b1 = b2 := by
  cases b1
  cases b2
  simp_all

/-- On a board already satisfying the pagination invariant,
`updatePagination` is the identity. -/
theorem updatePagination_eq_self (b : Board) (h : pageInvariant b) :
    b.updatePagination = b := by
  obtain ⟨htp, hcp0, hcplt⟩ := h
  refine Board.ext' _ _ (updatePagination_fields b).1 ?_ ?_
    (updatePagination_fields b).2.2.1 (updatePagination_fields b).2.2.2.1
    (updatePagination_fields b).2.1 (updatePagination_fields b).2.2.2.2
  · exact updatePagination_currentPage_eq b hcp0
      (by rw [updatePagination_totalPages, ← htp]; exact hcplt)
  · rw [updatePagination_totalPages, ← htp]

theorem pageInvariant_totalPages_pos (b : Board) (h : pageInvariant b) :
    (0 : Int) < b.totalPages := by
  obtain ⟨-, h0, h1⟩ := h
  omega

theorem nextPage_eq (b : Board) (h : pageInvariant b) :
    b.nextPage = { b with currentPage := (b.currentPage + 1).tmod b.totalPages } := by
  unfold Board.nextPage
  rw [updatePagination_eq_self b h]

/-- `NextPage` preserves the pagination invariant (for any starting
board: it recomputes pagination before advancing). -/
theorem nextPage_invariant (b : Board) : pageInvariant b.nextPage := by
  have h1 := updatePagination_invariant b
  obtain ⟨htp, hcp0, hcplt⟩ := h1
  have htpos : (0 : Int) < (b.updatePagination).totalPages := by omega
  have hmod : ((b.updatePagination).currentPage + 1).tmod (b.updatePagination).totalPages
      = ((b.updatePagination).currentPage + 1) % (b.updatePagination).totalPages :=
    Int.tmod_eq_emod (by omega) (by omega)
  unfold Board.nextPage
  dsimp only
  refine ⟨?_, ?_, ?_⟩
  · dsimp [effPageSize] at htp ⊢
    exact htp
  · rw [hmod]
    exact Int.emod_nonneg _ (by omega)
  · rw [hmod]
    exact Int.emod_lt_of_pos _ htpos

/-- **C5** (pagination invariant): the invariant
`totalPages = max(1, ⌈rowCount/pageSize⌉) ∧ 0 ≤ currentPageIndex < totalPages`
holds after `NewBoard`, after every `UpdateFlights`, and after every
`NextPage`; and when a shrink leaves the stored page index at or past
the new page count, `UpdateFlights` clamps it to the last valid page
(`totalPages - 1`), not to 0. -/
theorem pagination_invariant_maintained (code : String) (tz : Option Int)
    (pp : Int) (b : Board) (now : Int) (fl : List Flight) :
    pageInvariant (newBoard code tz pp) ∧
    pageInvariant (b.updateFlights now fl) ∧
    pageInvariant b.nextPage ∧
    ((b.updateFlights now fl).totalPages ≤ b.currentPage →
      (b.updateFlights now fl).currentPage =
        (b.updateFlights now fl).totalPages - 1) := by
  refine ⟨?_, updatePagination_invariant _, nextPage_invariant b, ?_⟩
  · refine ⟨?_, le_refl _, Int.one_pos⟩
    show (1 : Int) =
      ((max 1 ((0 : Nat) ⌈/⌉ (effPageSize (newBoard code tz pp)).toNat) : Nat) : Int)
    rw [zero_ceilDiv]
    simp
  · exact (updatePagination_currentPage _).2.2

/-- **C6** (rotation wraps): on a board satisfying the pagination
invariant, one `NextPage` call advances `currentPageIndex` to
`(currentPageIndex + 1) mod totalPages` (wrapping from the last page
to page 0), and `totalPages` successive calls return it to its
original value. -/
theorem nextPage_rotation (b : Board) (h : pageInvariant b) :
    (b.nextPage).currentPage = (b.currentPage + 1).tmod b.totalPages ∧
    (Board.nextPage^[b.totalPages.toNat] b).currentPage = b.currentPage := by
  have htpos := pageInvariant_totalPages_pos b h
  have hiter : ∀ k : Nat, Board.nextPage^[k] b =
      { b with currentPage := (b.currentPage + k) % b.totalPages } := by
    intro k
    induction k with
    | zero =>
      have h0 : (b.currentPage + (0 : Nat)) % b.totalPages = b.currentPage := by
        rw [Nat.cast_zero, add_zero]
        exact Int.emod_eq_of_lt h.2.1 h.2.2
      rw [Function.iterate_zero_apply, h0]
    | succ k ih =>
      rw [Function.iterate_succ_apply', ih]
      have hinv' : pageInvariant { b with currentPage := (b.currentPage + k) % b.totalPages } := by
        refine ⟨h.1, Int.emod_nonneg _ (by omega), Int.emod_lt_of_pos _ htpos⟩
      rw [nextPage_eq _ hinv']
      have harith : (((b.currentPage + k) % b.totalPages + 1).tmod b.totalPages)
          = (b.currentPage + (k + 1 : Nat)) % b.totalPages := by
        rw [Int.tmod_eq_emod (by have := Int.emod_nonneg (b.currentPage + k) (by omega : b.totalPages ≠ 0); omega) (by omega)]
        rw [Int.emod_add_emod]
        push_cast
        ring_nf
      rw [harith]
  constructor
  · rw [nextPage_eq b h]
  · rw [hiter b.totalPages.toNat]
    show (b.currentPage + (b.totalPages.toNat : Int)) % b.totalPages = _
    have htn : ((b.totalPages.toNat : Nat) : Int) = b.totalPages := by omega
    rw [htn, Int.add_emod_self]
    exact Int.emod_eq_of_lt h.2.1 h.2.2

/-! ## Identity-key reconciliation (C1) -/

/-- The animation state of the `i`-th character cell of a field
(`none` when the cell is unset). -/
def cellStateAt (at_ : AnimatedText) (i : Nat) : Option CharAnimationState :=
  match at_.chars.getD i none with
  | none => none
  | some ca => some ca.state

/-- A field that has settled on the display text `text`: correct
capacity, the stored previous text is the width-normalized `text`,
and no cell is mid-animation. -/
def fieldSettled (at_ : AnimatedText) (w : Nat) (text : String) : Prop :=
  at_.maxLength = w ∧ at_.chars.length = w ∧
  at_.oldText = normalizeText w text ∧ at_.isAnimating = false

instance (at_ : AnimatedText) (w : Nat) (text : String) :
    Decidable (fieldSettled at_ w text) := by
  unfold fieldSettled
  infer_instance

/-- Updating a settled field with a text whose normalization equals the
settled text leaves the field with no blinking cell: unchanged
positions are left alone, never reset. -/
theorem update_same_text_not_animating (at_ : AnimatedText) (w : Nat)
    (tOld : String) (now : Int) (s : String)
    (hf : fieldSettled at_ w tOld)
    (hs : normalizeText w s = normalizeText w tOld) :
    (at_.update now s).isAnimating = false := by
  obtain ⟨hml, hcl, hold, hanim⟩ := hf
  rw [AnimatedText.isAnimating, List.any_eq_false]
  intro x hx
  unfold AnimatedText.update at hx
  dsimp only at hx
  rw [List.mem_mapIdx] at hx
  obtain ⟨i, hi, rfl⟩ := hx
  have hiw : i < at_.maxLength := by omega
  rw [if_pos hiw]
  have hoc : (normalizeText at_.maxLength at_.oldText).data.getD i ' ' =
      (normalizeText at_.maxLength s).data.getD i ' ' := by
    rw [hold, hml, normalizeText_idem, hs]
  rw [if_neg (by rw [hoc]; exact fun hne => hne rfl)]
  rw [AnimatedText.isAnimating, List.any_eq_false] at hanim
  cases hcase : at_.chars[i] with
  | none => simp
  | some ca =>
    have := hanim _ (List.getElem_mem hi)
    rw [hcase] at this
    simpa using this

/-- After updating a settled field, a cell is `Blinking` exactly at the
positions where the width-normalized old and new texts differ. -/
theorem update_cellState_blinking (at_ : AnimatedText) (w : Nat)
    (tOld : String) (now : Int) (s : String)
    (hf : fieldSettled at_ w tOld) (i : Nat) (hiw : i < w) :
    (cellStateAt (at_.update now s) i = some CharAnimationState.blinking ↔
      (normalizeText w tOld).data.getD i ' ' ≠
        (normalizeText w s).data.getD i ' ') := by
  obtain ⟨hml, hcl, hold, hanim⟩ := hf
  have hil : i < (at_.update now s).chars.length := by
    rw [update_chars_length]
    omega
  have hil' : i < at_.chars.length := by omega
  unfold cellStateAt
  rw [List.getD_eq_getElem _ _ hil]
  unfold AnimatedText.update
  dsimp only
  rw [List.getElem_mapIdx]
  rw [if_pos (by omega : i < at_.maxLength)]
  have hoc : (normalizeText at_.maxLength at_.oldText).data.getD i ' ' =
      (normalizeText w tOld).data.getD i ' ' := by
    rw [hold, hml, normalizeText_idem]
  simp only [hml] at hoc ⊢
  by_cases hdiff : (normalizeText w tOld).data.getD i ' ' =
      (normalizeText w s).data.getD i ' '
  · rw [if_neg (by rw [hoc, hdiff]; exact fun hne => hne rfl)]
    simp only [hdiff, ne_eq, not_true_eq_false, iff_false]
    rw [AnimatedText.isAnimating, List.any_eq_false] at hanim
    cases hcase : at_.chars[i] with
    | none => simp
    | some ca =>
      have := hanim _ (List.getElem_mem hil')
      rw [hcase] at this
      simp only [decide_eq_true_eq] at this
      simp only []
      intro hcontra
      injection hcontra with hcontra
      exact this hcontra
  · rw [if_pos (by rw [hoc]; exact hdiff)]
    simpa using hdiff

theorem sortSliceGo_singleton {α : Type} [Inhabited α]
    (less : α → α → Bool) (x : α) : sortSliceGo less [x] = [x] := rfl

theorem goMapRowsIdx_single (r : FlightRow) (f : Flight) (hr : r.flight = some f)
    (k : String) :
    goMapRowsIdx [r] k = if k = f.flightNumber then some 0 else none := by
  unfold goMapRowsIdx
  rw [goMapRowsIdxFrom]
  rw [show goMapRowsIdxFrom (0 + 1) [] k = none from rfl]
  rw [hr]

/-- A row all of whose six fields have settled on the display texts
derived from snapshot `f`. -/
def rowSettled (r : FlightRow) (f : Flight) : Prop :=
  r.flight = some f ∧
  fieldSettled r.statusAnim 1 (deriveStatusText f) ∧
  fieldSettled r.flightNumAnim 8 (deriveFlightNumText f) ∧
  fieldSettled r.timeAnim 8 (deriveTimeText f) ∧
  fieldSettled r.destinationAnim 20 (deriveDestText f) ∧
  fieldSettled r.gateAnim 6 (deriveGate f) ∧
  fieldSettled r.remarksAnim 20 (deriveRemarksText f)

instance (r : FlightRow) (f : Flight) : Decidable (rowSettled r f) := by
  unfold rowSettled
  infer_instance

/-- **C1** (identity-key reconciliation preserves animation state):
if the board holds a settled row for a flight and receives a snapshot
with the same flight number that differs only in the gate, then
`UpdateFlights` keeps and updates that very row (it does not build a
new one), the status/flight-number/time/destination/remarks fields
end with zero blinking cells, and the gate field's cells are
`Blinking` exactly at the character positions where the
width-normalized old and new gate texts differ. -/
theorem identity_reconciliation (b : Board) (r : FlightRow) (fOld : Flight)
    (g : String) (now : Int)
    (hb : b.flights = [r]) (htz : b.airportTZ = none)
    (hs : rowSettled r fOld) :
    (b.updateFlights now [{ fOld with gate := g }]).flights =
      [r.update now { fOld with gate := g }] ∧
    (r.update now { fOld with gate := g }).statusAnim.isAnimating = false ∧
    (r.update now { fOld with gate := g }).flightNumAnim.isAnimating = false ∧
    (r.update now { fOld with gate := g }).timeAnim.isAnimating = false ∧
    (r.update now { fOld with gate := g }).destinationAnim.isAnimating = false ∧
    (r.update now { fOld with gate := g }).remarksAnim.isAnimating = false ∧
    (∀ i : Nat, i < 6 →
      (cellStateAt (r.update now { fOld with gate := g }).gateAnim i =
          some CharAnimationState.blinking ↔
        (normalizeText 6 (deriveGate fOld)).data.getD i ' ' ≠
          (normalizeText 6 (deriveGate { fOld with gate := g })).data.getD i ' ')) := by
  obtain ⟨hrf, hstat, hfn, htm, hdst, hgt, hrm⟩ := hs
  refine ⟨?_, ?_, ?_, ?_, ?_, ?_, ?_⟩
  · unfold Board.updateFlights
    rw [(updatePagination_fields _).1]
    dsimp only
    rw [htz, hb]
    rw [show ([{ fOld with gate := g }].map (convertFlight none)) =
      [{ fOld with gate := g }] from rfl]
    rw [sortSliceGo_singleton]
    rw [List.foldl_cons, List.foldl_nil]
    have hstep : updateRowsStep (goMapRowsIdx [r]) now ([r], [])
        ({ fOld with gate := g } : Flight) =
        ([r.update now { fOld with gate := g }], [0]) := by
      unfold updateRowsStep
      rw [goMapRowsIdx_single r fOld hrf]
      rw [if_pos rfl]
      rfl
    rw [hstep]
    rfl
  · exact update_same_text_not_animating _ 1 (deriveStatusText fOld) now _ hstat rfl
  · exact update_same_text_not_animating _ 8 (deriveFlightNumText fOld) now _ hfn rfl
  · exact update_same_text_not_animating _ 8 (deriveTimeText fOld) now _ htm rfl
  · exact update_same_text_not_animating _ 20 (deriveDestText fOld) now _ hdst rfl
  · exact update_same_text_not_animating _ 20 (deriveRemarksText fOld) now _ hrm rfl
  · intro i hi
    exact update_cellState_blinking _ 6 (deriveGate fOld) now _ hgt i hi

/-- A field literal in the settled state on `text` (used to build the
C1 witness row). -/
def mkSettledField (w : Nat) (text : String) : AnimatedText :=
  { oldText := normalizeText w text, newText := normalizeText w text,
    chars := (normalizeText w text).data.map fun c =>
      some { oldChar := c, newChar := c, state := CharAnimationState.stable,
             blinkPhase := 0, startTime := 0 },
    maxLength := w }

/-- A row literal in the settled state on snapshot `f`. -/
def mkSettledRow (f : Flight) : FlightRow :=
  { flight := some f
    statusAnim := mkSettledField 1 (deriveStatusText f)
    flightNumAnim := mkSettledField 8 (deriveFlightNumText f)
    timeAnim := mkSettledField 8 (deriveTimeText f)
    destinationAnim := mkSettledField 20 (deriveDestText f)
    gateAnim := mkSettledField 6 (deriveGate f)
    remarksAnim := mkSettledField 20 (deriveRemarksText f) }

/-- The concrete flight used to witness C1. -/
def c1Flight : Flight :=
  { status := FlightStatus.onTime, airlineCode := "BA", airlineName := "BA",
    flightNumber := "BA114", destinationCode := "LHR",
    destinationCity := "London", gate := "A1", remarks := "On Time",
    scheduledDeparture := { unix := 36000, offset := 0 },
    estimatedDeparture := none }

/-- Witness for C1: a one-row board for "BA114" receives the same
snapshot with gate "B2" instead of "A1"; the row is updated in
place. -/
theorem identity_reconciliation_witness :
    rowSettled (mkSettledRow c1Flight) c1Flight ∧
    (({ newBoard "JFK" none 15 with
        flights := [mkSettledRow c1Flight] } : Board).updateFlights 0
          [{ c1Flight with gate := "B2" }]).flights =
      [(mkSettledRow c1Flight).update 0 { c1Flight with gate := "B2" }] := by
  refine ⟨by decide, ?_⟩
  exact (identity_reconciliation _ _ c1Flight "B2" 0 rfl rfl (by decide)).1

/-- **C4** (pagination completeness): for any board state with a
non-negative page index (negative indices are unreachable:
`NewBoard` starts at 0 and every operation clamps into range),
`GetCurrentPageFlights` returns exactly the effective page size's
worth of entries: the real rows starting at
`currentPageIndex * pageSize`, padded at the tail with snapshot-less
filler rows. -/
theorem getCurrentPage_complete (b : Board) (h : 0 ≤ b.currentPage) :
    b.getCurrentPageFlights.length = (effPageSize b).toNat ∧
    b.getCurrentPageFlights =
      (b.flights.drop (b.currentPage * effPageSize b).toNat).take (effPageSize b).toNat ++
        List.replicate
          ((effPageSize b).toNat -
            ((b.flights.drop (b.currentPage * effPageSize b).toNat).take
              (effPageSize b).toNat).length)
          (newFlightRow 0 none) := by
  have hpp : (0 : Int) < effPageSize b := effPageSize_pos b
  have hppdef : (if b.flightsPerPage ≤ 0 then (10 : Int) else b.flightsPerPage) =
      effPageSize b := rfl
  have hmain : b.getCurrentPageFlights =
      (b.flights.drop (b.currentPage * effPageSize b).toNat).take (effPageSize b).toNat ++
        List.replicate
          ((effPageSize b).toNat -
            ((b.flights.drop (b.currentPage * effPageSize b).toNat).take
              (effPageSize b).toNat).length)
          (newFlightRow 0 none) := by
    unfold Board.getCurrentPageFlights
    rw [hppdef]
    dsimp only
    have hstart : (0 : Int) ≤ b.currentPage * effPageSize b :=
      mul_nonneg h (le_of_lt hpp)
    have hdroplen : ((b.flights.drop (b.currentPage * effPageSize b).toNat).length : Int) =
        max 0 ((b.flights.length : Int) - b.currentPage * effPageSize b) := by
      rw [List.length_drop]
      omega
    by_cases hsn : b.currentPage * effPageSize b ≥ (b.flights.length : Int)
    · rw [if_pos hsn, if_neg (by omega)]
      have hdrop : b.flights.drop (b.currentPage * effPageSize b).toNat = [] :=
        List.drop_eq_nil_of_le (by omega)
      rw [hdrop]
      simp
    · rw [if_neg hsn, if_pos (by omega)]
      by_cases hend : b.currentPage * effPageSize b + effPageSize b > (b.flights.length : Int)
      · rw [if_pos hend]
        have hfull1 : (b.flights.drop (b.currentPage * effPageSize b).toNat).take
            ((b.flights.length : Int) - b.currentPage * effPageSize b).toNat =
            b.flights.drop (b.currentPage * effPageSize b).toNat :=
          List.take_of_length_le (by omega)
        have hfull2 : (b.flights.drop (b.currentPage * effPageSize b).toNat).take
            (effPageSize b).toNat =
            b.flights.drop (b.currentPage * effPageSize b).toNat :=
          List.take_of_length_le (by omega)
        rw [hfull1, hfull2]
        have hcnt : (effPageSize b -
            ((b.flights.length : Int) - b.currentPage * effPageSize b)).toNat =
            (effPageSize b).toNat -
              (b.flights.drop (b.currentPage * effPageSize b).toNat).length := by
          omega
        rw [hcnt]
      · rw [if_neg hend]
        have hsub : (b.currentPage * effPageSize b + effPageSize b -
            b.currentPage * effPageSize b) = effPageSize b := by ring
        rw [hsub]
        have hlen' : ((b.flights.drop (b.currentPage * effPageSize b).toNat).take
            (effPageSize b).toNat).length = (effPageSize b).toNat := by
          rw [List.length_take]
          omega
        rw [hlen']
        simp
  refine ⟨?_, hmain⟩
  rw [hmain]
  rw [List.length_append, List.length_replicate, List.length_take]
  omega

/-- Witness for C4: a concrete board with two rows, page size 3,
page index 0: one real row, two filler rows. -/
theorem getCurrentPage_complete_witness :
    (0 : Int) ≤ (newBoard "JFK" none 3).currentPage ∧
    ({ newBoard "JFK" none 3 with
        flights := [newFlightRow 0 none] }).getCurrentPageFlights.length = 3 := by
  refine ⟨le_refl _, ?_⟩
  have := (getCurrentPage_complete
    { newBoard "JFK" none 3 with flights := [newFlightRow 0 none] } (le_refl 0)).1
  simpa using this

/-- A concrete two-page board (three rows, page size 2) on page 1,
used to witness C6. -/
def rotationDemoBoard : Board :=
  { flights := [newFlightRow 0 none, newFlightRow 0 none, newFlightRow 0 none],
    currentPage := 1, totalPages := 2, airportCode := "JFK",
    airportTZ := none, flightsPerPage := 2, error := "" }

/-- Witness for C6: on the concrete two-page board, two `NextPage`
calls return the page index to its original value. -/
theorem nextPage_rotation_witness :
    pageInvariant rotationDemoBoard ∧
    (Board.nextPage^[2] rotationDemoBoard).currentPage = 1 := by
  constructor
  · exact ⟨by decide, by decide, by decide⟩
  · exact (nextPage_rotation rotationDemoBoard ⟨by decide, by decide, by decide⟩).2

/-! ## Sort order and stability (C7)

Go's insertion sort (the `sort.Slice` path taken for ranges of at
most 12 elements) is related to a functional specification: the
sorted-so-far prefix is kept reversed and each new element sinks past
the strictly greater elements.  From that, sortedness and stability
follow. -/

section SinkSpec

variable {α : Type} [Inhabited α] (less : α → α → Bool)

/-- Insert `x` into the reversed sorted prefix `r` (whose head is the
rightmost element), moving it past each strictly greater element —
the list-level effect of the Go inner insertion-sort loop. -/
def sink (x : α) : List α → List α
  | [] => [x]
  | y :: ys => if less x y then y :: sink x ys else x :: y :: ys

theorem sink_length (x : α) (r : List α) :
    (sink less x r).length = r.length + 1 := by
  induction r with
  | nil => rfl
  | cons y ys ih =>
    unfold sink
    split
    · simpa using ih
    · simp

theorem mem_sink (x z : α) (r : List α) :
    z ∈ sink less x r ↔ z = x ∨ z ∈ r := by
  induction r with
  | nil => simp [sink]
  | cons y ys ih =>
    unfold sink
    split
    · simp only [List.mem_cons, ih]
      try tauto
    · simp only [List.mem_cons]
      try tauto

theorem sink_pairwise
    (Hasym : ∀ u v, less u v = true → less v u = false)
    (Hntrans : ∀ u v w, less u v = false → less v w = false → less u w = false)
    (x : α) (r : List α)
    (hr : r.Pairwise (fun u v => less u v = false)) :
    (sink less x r).Pairwise (fun u v => less u v = false) := by
  induction r with
  | nil => simp [sink]
  | cons y ys ih =>
    rw [List.pairwise_cons] at hr
    obtain ⟨hy, hys⟩ := hr
    unfold sink
    split
    · next hxy =>
      rw [List.pairwise_cons]
      refine ⟨?_, ih hys⟩
      intro z hz
      rcases (mem_sink less x z ys).mp hz with hzx | hzys
      · subst hzx
        exact Hasym _ y hxy
      · exact hy z hzys
    · next hxy =>
      rw [List.pairwise_cons]
      refine ⟨?_, List.Pairwise.cons hy hys⟩
      intro z hz
      rcases List.mem_cons.mp hz with hzy | hzys
      · subst hzy
        exact Bool.eq_false_iff.mpr hxy
      · exact Hntrans x y z (Bool.eq_false_iff.mpr hxy) (hy z hzys)

theorem sink_filter (pt : α → Bool)
    (hpt : ∀ u v, less u v = true → pt u = false ∨ pt v = false)
    (x : α) (r : List α) :
    ((sink less x r).reverse).filter pt =
      (r.reverse).filter pt ++ (if pt x then [x] else []) := by
  induction r with
  | nil =>
    unfold sink
    cases hx : pt x <;> simp [hx]
  | cons y ys ih =>
    unfold sink
    split
    · next hxy =>
      rw [List.reverse_cons, List.filter_append, ih, List.reverse_cons,
        List.filter_append]
      rcases hpt x y hxy with hx | hy
      · simp [hx]
      · simp [hy]
    · next hxy =>
      rw [show (x :: y :: ys).reverse = (y :: ys).reverse ++ [x] from by simp]
      rw [List.filter_append]
      cases hx : pt x <;> simp [hx]

theorem foldl_sink_pairwise
    (Hasym : ∀ u v, less u v = true → less v u = false)
    (Hntrans : ∀ u v w, less u v = false → less v w = false → less u w = false)
    (l : List α) :
    ∀ acc, acc.Pairwise (fun u v => less u v = false) →
      (l.foldl (fun r x => sink less x r) acc).Pairwise
        (fun u v => less u v = false) := by
  induction l with
  | nil => intro acc hacc; exact hacc
  | cons x rest ih =>
    intro acc hacc
    exact ih _ (sink_pairwise less Hasym Hntrans x acc hacc)

theorem foldl_sink_filter (pt : α → Bool)
    (hpt : ∀ u v, less u v = true → pt u = false ∨ pt v = false)
    (l : List α) :
    ∀ acc, ((l.foldl (fun r x => sink less x r) acc).reverse).filter pt =
      (acc.reverse).filter pt ++ l.filter pt := by
  induction l with
  | nil => intro acc; simp
  | cons x rest ih =>
    intro acc
    rw [List.foldl_cons, ih (sink less x acc), sink_filter less pt hpt]
    cases hx : pt x <;> simp [hx, List.filter_cons]

/-! ### Bridge from the Go loops to `sink` -/

theorem geti_append_mid (M : List α) (x : α) (L2 : List α) :
    geti (M ++ x :: L2) (M.length : Int) = x := by
  unfold geti
  rw [if_pos (by omega)]
  rw [show ((M.length : Int)).toNat = M.length from by omega]
  rw [List.getD_eq_getElem?_getD, List.getElem?_append_right (le_refl M.length)]
  simp

theorem set_append_right_nat (M l : List α) (k : Nat) (v : α) :
    (M ++ l).set (M.length + k) v = M ++ l.set k v := by
  induction M with
  | nil => simp
  | cons a M ih =>
    have hidx : (a :: M).length + k = (M.length + k) + 1 := by
      rw [List.length_cons]
      omega
    rw [List.cons_append, hidx]
    show a :: (M ++ l).set (M.length + k) v = a :: M ++ l.set k v
    rw [ih]
    rfl

theorem lswap_adjacent (M : List α) (y x : α) (L2 : List α) :
    lswap (M ++ y :: x :: L2) ((M.length : Int) + 1) (M.length : Int) =
      M ++ x :: y :: L2 := by
  have hx : geti (M ++ y :: x :: L2) ((M.length : Int) + 1) = x := by
    have := geti_append_mid (M ++ [y]) x L2
    simpa [List.append_assoc] using this
  have hy : geti (M ++ y :: x :: L2) (M.length : Int) = y :=
    geti_append_mid M y (x :: L2)
  unfold lswap
  rw [hx, hy]
  unfold seti
  rw [if_pos (by omega), if_pos (by omega)]
  rw [show ((M.length : Int) + 1).toNat = M.length + 1 from by omega]
  rw [show ((M.length : Int)).toNat = M.length from by omega]
  rw [set_append_right_nat M (y :: x :: L2) 1 y]
  have h1 : (y :: x :: L2).set 1 y = y :: y :: L2 := rfl
  rw [h1]
  have h2 := set_append_right_nat M (y :: y :: L2) 0 x
  simpa using h2

/-- The Go inner insertion-sort loop, started at position `L1.length`
of `L1 ++ x :: L2` (with fuel equal to the position, as the outer loop
passes it), sinks `x` into the prefix `L1`. -/
theorem insSortInner_bridge (x : α) (L1 : List α) :
    ∀ L2 : List α,
      insSortInner less 0 L1.length (L1 ++ x :: L2) (L1.length : Int) =
        (sink less x L1.reverse).reverse ++ L2 := by
  induction L1 using List.reverseRecOn with
  | nil =>
    intro L2
    simp [insSortInner, sink]
  | append_singleton M y ih =>
    intro L2
    have hlen : (M ++ [y]).length = M.length + 1 := by simp
    rw [hlen]
    have hl : (M ++ [y]) ++ x :: L2 = M ++ y :: x :: L2 := by simp
    rw [hl]
    have hcast : ((M.length + 1 : Nat) : Int) = (M.length : Int) + 1 := by push_cast; ring
    rw [hcast]
    rw [insSortInner]
    have hsub : ((M.length : Int) + 1 - 1) = (M.length : Int) := by ring
    rw [hsub]
    have hgx : geti (M ++ y :: x :: L2) ((M.length : Int) + 1) = x := by
      have := geti_append_mid (M ++ [y]) x L2
      simpa [List.append_assoc] using this
    have hgy : geti (M ++ y :: x :: L2) (M.length : Int) = y :=
      geti_append_mid M y (x :: L2)
    have hless : lless less (M ++ y :: x :: L2) ((M.length : Int) + 1) (M.length : Int) =
        less x y := by
      unfold lless
      rw [hgx, hgy]
    have hrev : (M ++ [y]).reverse = y :: M.reverse := by simp
    by_cases hxy : less x y = true
    · rw [if_pos ⟨by omega, by rw [hless]; exact hxy⟩]
      rw [lswap_adjacent]
      rw [ih (y :: L2)]
      rw [hrev]
      have hsink : sink less x (y :: M.reverse) = y :: sink less x M.reverse := by
        rw [sink, if_pos hxy]
      rw [hsink]
      simp
    · rw [if_neg (by rw [hless]; tauto)]
      rw [hrev]
      have hsink : sink less x (y :: M.reverse) = x :: y :: M.reverse := by
        rw [sink, if_neg hxy]
      rw [hsink]
      simp

/-- The Go outer insertion-sort loop folds `sink` over the remaining
elements. -/
theorem insSortOuter_bridge (rest : List α) :
    ∀ (Racc : List α) (fuel : Nat), rest.length ≤ fuel →
      insSortOuter less 0 ((Racc.length + rest.length : Nat) : Int) fuel
          (Racc.reverse ++ rest) (Racc.length : Int) =
        (rest.foldl (fun r x => sink less x r) Racc).reverse := by
  induction rest with
  | nil =>
    intro Racc fuel hfuel
    cases fuel with
    | zero => simp [insSortOuter]
    | succ f =>
      rw [insSortOuter]
      rw [if_neg (by simp)]
      simp
  | cons x rest' ih =>
    intro Racc fuel hfuel
    cases fuel with
    | zero => simp at hfuel
    | succ f =>
      rw [insSortOuter]
      rw [if_pos (by simp only [List.length_cons]; omega)]
      rw [show ((Racc.length : Int) - 0).toNat = Racc.length from by omega]
      have hinner := insSortInner_bridge less x Racc.reverse rest'
      rw [List.length_reverse] at hinner
      rw [hinner, List.reverse_reverse]
      have hib : ((Racc.length + (x :: rest').length : Nat) : Int) =
          (((sink less x Racc).length + rest'.length : Nat) : Int) := by
        rw [sink_length]
        simp only [List.length_cons]
        omega
      have hii : ((Racc.length : Int) + 1) = (((sink less x Racc).length : Nat) : Int) := by
        rw [sink_length]
        omega
      rw [hib, hii]
      have hfuel' : rest'.length ≤ f := by
        simp only [List.length_cons] at hfuel
        omega
      rw [ih (sink less x Racc) f hfuel']
      rfl

/-- Go's `insertionSort_func(data, 0, len)` computes the reversed
`sink`-fold: the classical stable insertion sort. -/
theorem insertionSortGo_eq_sinkSort (l : List α) :
    insertionSortGo less l 0 (l.length : Int) =
      (l.foldl (fun r x => sink less x r) []).reverse := by
  cases l with
  | nil => rfl
  | cons x t =>
    unfold insertionSortGo
    rw [show (((x :: t).length : Int) - 0).toNat = t.length + 1 from by
      simp only [List.length_cons]; omega]
    rw [show ((x :: t).length : Int) = ((([x] : List α).length + t.length : Nat) : Int)
      from by simp only [List.length_cons, List.length_nil]; omega]
    rw [show ((0 : Int) + 1) = ((([x] : List α).length : Nat) : Int) from by
      simp only [List.length_cons, List.length_nil]; omega]
    rw [show x :: t = ([x] : List α).reverse ++ t from by simp]
    rw [insSortOuter_bridge less t [x] (t.length + 1) (by omega)]
    rfl

/-- For ranges of at most `maxInsertion = 12` elements, `sort.Slice`
is exactly the insertion sort. -/
theorem sortSliceGo_of_small (l : List α) (h : l.length ≤ 12) :
    sortSliceGo less l = insertionSortGo less l 0 (l.length : Int) := by
  unfold sortSliceGo
  rw [pdqsortLoop]
  rw [if_pos (by push_cast; omega)]

end SinkSpec

/-! ### Instantiation at the flight comparison -/

theorem lessFlight_asymm (u v : Flight) :
    lessFlight u v = true → lessFlight v u = false := by
  unfold lessFlight GoTime.before
  intro h
  simp only [decide_eq_true_eq] at h
  simp only [decide_eq_false_iff_not]
  omega

theorem lessFlight_neg_trans (u v w : Flight) :
    lessFlight u v = false → lessFlight v w = false → lessFlight u w = false := by
  unfold lessFlight GoTime.before
  intro h1 h2
  simp only [decide_eq_false_iff_not] at h1 h2 ⊢
  omega

theorem lessFlight_key (t : Int) (u v : Flight) (h : lessFlight u v = true) :
    (decide (u.scheduledDeparture.unix = t) = false) ∨
      (decide (v.scheduledDeparture.unix = t) = false) := by
  unfold lessFlight GoTime.before at h
  simp only [decide_eq_true_eq] at h
  simp only [decide_eq_false_iff_not]
  omega

/-- Timezone conversion keeps the scheduled instant: sorting after
conversion orders by the same key as before. -/
theorem convertFlight_sched_unix (tz : Option Int) (f : Flight) :
    (convertFlight tz f).scheduledDeparture.unix = f.scheduledDeparture.unix := by
  unfold convertFlight
  cases tz with
  | none => rfl
  | some off =>
    dsimp only
    cases hest : f.estimatedDeparture with
    | none => rfl
    | some e =>
      dsimp only
      split <;> rfl

theorem convertFlight_flightNumber (tz : Option Int) (f : Flight) :
    (convertFlight tz f).flightNumber = f.flightNumber := by
  unfold convertFlight
  cases tz with
  | none => rfl
  | some off =>
    dsimp only
    cases hest : f.estimatedDeparture with
    | none => rfl
    | some e =>
      dsimp only
      split <;> rfl

/-! Facts about the pointer-level reconciliation loop.  `getD` over
`set`/append first. -/

theorem getD_set_ne' {β : Type} (l : List β) (i j : Nat) (v d : β) (h : i ≠ j) :
    (l.set i v).getD j d = l.getD j d := by
  rw [List.getD_eq_getElem?_getD, List.getD_eq_getElem?_getD, List.getElem?_set_ne h]

theorem getD_set_self' {β : Type} (l : List β) (i : Nat) (v d : β)
    (h : i < l.length) : (l.set i v).getD i d = v := by
  rw [List.getD_eq_getElem?_getD, List.getElem?_set_self h]
  rfl

theorem getD_append_left' {β : Type} (l l2 : List β) (i : Nat) (d : β)
    (h : i < l.length) : (l ++ l2).getD i d = l.getD i d := by
  rw [List.getD_eq_getElem?_getD, List.getD_eq_getElem?_getD,
    List.getElem?_append_left h]

theorem getD_append_len' {β : Type} (l : List β) (x d : β) :
    (l ++ [x]).getD l.length d = x := by
  rw [List.getD_eq_getElem?_getD, List.getElem?_append_right (le_refl _)]
  simp

theorem FlightRow.update_flight (r : FlightRow) (now : Int) (f : Flight) :
    (r.update now f).flight = some f := rfl

theorem newFlightRow_flight (now : Int) (f : Flight) :
    (newFlightRow now (some f)).flight = some f := rfl

/-- A successful map lookup names an in-range position holding a row
whose flight number is the key. -/
theorem goMapRowsIdxFrom_some :
    ∀ (rows : List FlightRow) (base : Nat) (k : String) (j : Nat),
      goMapRowsIdxFrom base rows k = some j →
      base ≤ j ∧ j < base + rows.length ∧
      ∃ f, (rows.getD (j - base) (newFlightRow 0 none)).flight = some f ∧
        f.flightNumber = k := by
  intro rows
  induction rows with
  | nil => intro base k j h; cases h
  | cons r rest ih =>
    intro base k j h
    rw [goMapRowsIdxFrom] at h
    cases hrec : goMapRowsIdxFrom (base + 1) rest k with
    | some j' =>
      rw [hrec] at h
      injection h with hj
      subst hj
      obtain ⟨h1, h2, f, hf, hk⟩ := ih (base + 1) k j' hrec
      refine ⟨by omega, ?_, f, ?_, hk⟩
      · simp only [List.length_cons]
        omega
      · have hjb : j' - base = (j' - (base + 1)) + 1 := by omega
        rw [hjb]
        exact hf
    | none =>
      rw [hrec] at h
      cases hrf : r.flight with
      | none =>
        rw [hrf] at h
        dsimp only at h
        cases h
      | some f =>
        rw [hrf] at h
        dsimp only at h
        by_cases hk : k = f.flightNumber
        · rw [if_pos hk] at h
          injection h with hj
          subst hj
          refine ⟨le_refl _, by simp, f, ?_, hk.symm⟩
          rw [Nat.sub_self]
          exact hrf
        · rw [if_neg hk] at h
          cases h

theorem goMapRowsIdx_some (rows : List FlightRow) (k : String) (j : Nat)
    (h : goMapRowsIdx rows k = some j) :
    j < rows.length ∧
    ∃ f, (rows.getD j (newFlightRow 0 none)).flight = some f ∧
      f.flightNumber = k := by
  obtain ⟨h1, h2, f, hf, hk⟩ := goMapRowsIdxFrom_some rows 0 k j h
  refine ⟨by omega, f, ?_, hk⟩
  rw [Nat.sub_zero] at hf
  exact hf

/-- Two keys hitting the same map cell are the same key (the cell's
row carries both as its flight number). -/
theorem goMapRowsIdx_inj (rows : List FlightRow) :
    ∀ (k1 k2 : String) (j : Nat), goMapRowsIdx rows k1 = some j →
      goMapRowsIdx rows k2 = some j → k1 = k2 := by
  intro k1 k2 j h1 h2
  obtain ⟨_, f1, hf1, hk1⟩ := goMapRowsIdx_some rows k1 j h1
  obtain ⟨_, f2, hf2, hk2⟩ := goMapRowsIdx_some rows k2 j h2
  rw [hf1] at hf2
  injection hf2 with he
  rw [← hk1, ← hk2, he]

/-- When the snapshot flight numbers are pairwise distinct, no cell is
written twice, so the reconciled positions read back the snapshots in
order — the Go rows then really are one per slice element. -/
theorem updateRows_foldl_rows (idxMap : String → Option Nat) (now : Int)
    (hinj : ∀ k1 k2 j, idxMap k1 = some j → idxMap k2 = some j → k1 = k2) :
    ∀ (l : List Flight) (store : List FlightRow) (ids : List Nat),
      (l.map Flight.flightNumber).Nodup →
      (∀ k j, idxMap k = some j → j < store.length) →
      (∀ i ∈ ids, i < store.length) →
      (∀ f ∈ l, ∀ i, idxMap f.flightNumber = some i → i ∉ ids) →
      (l.foldl (updateRowsStep idxMap now) (store, ids)).2.map
          (fun i => ((l.foldl (updateRowsStep idxMap now) (store, ids)).1.getD i
            (newFlightRow 0 none)).flight) =
        ids.map (fun i => (store.getD i (newFlightRow 0 none)).flight)
          ++ l.map some := by
  intro l
  induction l with
  | nil =>
    intro store ids _ _ _ _
    simp only [List.foldl_nil, List.map_nil, List.append_nil]
  | cons f t ih =>
    intro store ids hnd hmb hib hdisj
    rw [List.foldl_cons]
    have hndt : (t.map Flight.flightNumber).Nodup := by
      rw [List.map_cons] at hnd
      exact hnd.of_cons
    have hfk : f.flightNumber ∉ t.map Flight.flightNumber := by
      rw [List.map_cons] at hnd
      exact (List.nodup_cons.mp hnd).1
    cases hmi : idxMap f.flightNumber with
    | some i =>
      have hilt : i < store.length := hmb _ _ hmi
      have hinotin : i ∉ ids := hdisj f (List.mem_cons_self f t) i hmi
      have hstep : updateRowsStep idxMap now (store, ids) f =
          (store.set i ((store.getD i (newFlightRow 0 none)).update now f),
           ids ++ [i]) := by
        unfold updateRowsStep
        rw [hmi]
      rw [hstep]
      have hmb' : ∀ k j, idxMap k = some j →
          j < (store.set i ((store.getD i (newFlightRow 0 none)).update now f)).length := by
        intro k j hj
        rw [List.length_set]
        exact hmb k j hj
      have hib' : ∀ x ∈ ids ++ [i],
          x < (store.set i ((store.getD i (newFlightRow 0 none)).update now f)).length := by
        intro x hx
        rw [List.length_set]
        rcases List.mem_append.mp hx with hx | hx
        · exact hib x hx
        · rw [List.mem_singleton] at hx
          rw [hx]
          exact hilt
      have hdisj' : ∀ g ∈ t, ∀ i', idxMap g.flightNumber = some i' →
          i' ∉ ids ++ [i] := by
        intro g hg i' hgi' hmem
        rcases List.mem_append.mp hmem with hm | hm
        · exact hdisj g (List.mem_cons_of_mem f hg) i' hgi' hm
        · rw [List.mem_singleton] at hm
          rw [hm] at hgi'
          have hgf : g.flightNumber = f.flightNumber := hinj _ _ _ hgi' hmi
          exact hfk (hgf ▸ List.mem_map_of_mem Flight.flightNumber hg)
      rw [ih _ _ hndt hmb' hib' hdisj']
      have hgi : [i].map (fun x =>
          (((store.set i ((store.getD i (newFlightRow 0 none)).update now f))).getD x
            (newFlightRow 0 none)).flight) = [some f] := by
        simp only [List.map_cons, List.map_nil]
        rw [getD_set_self' _ _ _ _ hilt]
        rfl
      have hgids : ids.map (fun x =>
          (((store.set i ((store.getD i (newFlightRow 0 none)).update now f))).getD x
            (newFlightRow 0 none)).flight) =
          ids.map (fun x => (store.getD x (newFlightRow 0 none)).flight) := by
        apply List.map_congr_left
        intro x hx
        rw [getD_set_ne' _ _ _ _ _ (fun he => (he ▸ hinotin) hx)]
      rw [List.map_append, hgi, hgids, List.map_cons, List.append_assoc]
      rfl
    | none =>
      have hstep : updateRowsStep idxMap now (store, ids) f =
          (store ++ [newFlightRow now (some f)], ids ++ [store.length]) := by
        unfold updateRowsStep
        rw [hmi]
      rw [hstep]
      have hmb' : ∀ k j, idxMap k = some j →
          j < (store ++ [newFlightRow now (some f)]).length := by
        intro k j hj
        rw [List.length_append]
        have := hmb k j hj
        simp only [List.length_cons, List.length_nil]
        omega
      have hib' : ∀ x ∈ ids ++ [store.length],
          x < (store ++ [newFlightRow now (some f)]).length := by
        intro x hx
        rw [List.length_append]
        simp only [List.length_cons, List.length_nil]
        rcases List.mem_append.mp hx with hx | hx
        · have := hib x hx
          omega
        · rw [List.mem_singleton] at hx
          omega
      have hdisj' : ∀ g ∈ t, ∀ i', idxMap g.flightNumber = some i' →
          i' ∉ ids ++ [store.length] := by
        intro g hg i' hgi' hmem
        rcases List.mem_append.mp hmem with hm | hm
        · exact hdisj g (List.mem_cons_of_mem f hg) i' hgi' hm
        · rw [List.mem_singleton] at hm
          have := hmb _ _ hgi'
          omega
      rw [ih _ _ hndt hmb' hib' hdisj']
      have hgi : [store.length].map (fun x =>
          ((store ++ [newFlightRow now (some f)]).getD x
            (newFlightRow 0 none)).flight) = [some f] := by
        simp only [List.map_cons, List.map_nil]
        rw [getD_append_len']
        rfl
      have hgids : ids.map (fun x =>
          ((store ++ [newFlightRow now (some f)]).getD x
            (newFlightRow 0 none)).flight) =
          ids.map (fun x => (store.getD x (newFlightRow 0 none)).flight) := by
        apply List.map_congr_left
        intro x hx
        rw [getD_append_left' _ _ _ _ (hib x hx)]
      rw [List.map_append, hgi, hgids, List.map_cons, List.append_assoc]
      rfl

/-- Every cell position the reconciliation loop appends reads back a
row whose snapshot is one of the folded flights (whatever predicate
they satisfy), regardless of duplicate keys. -/
theorem updateRows_foldl_flightQ (idxMap : String → Option Nat) (now : Int)
    (Q : Flight → Prop) :
    ∀ (l : List Flight) (store : List FlightRow) (ids : List Nat),
      (∀ f ∈ l, Q f) →
      (∀ i ∈ ids, ∀ f,
        (store.getD i (newFlightRow 0 none)).flight = some f → Q f) →
      ∀ i ∈ (l.foldl (updateRowsStep idxMap now) (store, ids)).2, ∀ f,
        ((l.foldl (updateRowsStep idxMap now) (store, ids)).1.getD i
          (newFlightRow 0 none)).flight = some f → Q f := by
  intro l
  induction l with
  | nil =>
    intro store ids _ hinv
    simpa only [List.foldl_nil] using hinv
  | cons f t ih =>
    intro store ids hQ hinv
    rw [List.foldl_cons]
    cases hmi : idxMap f.flightNumber with
    | some i =>
      have hstep : updateRowsStep idxMap now (store, ids) f =
          (store.set i ((store.getD i (newFlightRow 0 none)).update now f),
           ids ++ [i]) := by
        unfold updateRowsStep
        rw [hmi]
      rw [hstep]
      apply ih
      · intro g hg
        exact hQ g (List.mem_cons_of_mem f hg)
      · intro x hx g hgf
        by_cases hxi : x = i
        · subst hxi
          by_cases hlt : x < store.length
          · rw [getD_set_self' _ _ _ _ hlt] at hgf
            rw [FlightRow.update_flight] at hgf
            injection hgf with hg'
            rw [← hg']
            exact hQ f (List.mem_cons_self f t)
          · rw [List.set_eq_of_length_le (le_of_not_lt hlt)] at hgf
            rw [List.getD_eq_default _ _ (le_of_not_lt hlt)] at hgf
            cases hgf
        · have hx' : x ∈ ids := by
            rcases List.mem_append.mp hx with h | h
            · exact h
            · rw [List.mem_singleton] at h
              exact absurd h hxi
          rw [getD_set_ne' _ _ _ _ _ (fun he => hxi he.symm)] at hgf
          exact hinv x hx' g hgf
    | none =>
      have hstep : updateRowsStep idxMap now (store, ids) f =
          (store ++ [newFlightRow now (some f)], ids ++ [store.length]) := by
        unfold updateRowsStep
        rw [hmi]
      rw [hstep]
      apply ih
      · intro g hg
        exact hQ g (List.mem_cons_of_mem f hg)
      · intro x hx g hgf
        by_cases hxl : x < store.length
        · rw [getD_append_left' _ _ _ _ hxl] at hgf
          have hx' : x ∈ ids := by
            rcases List.mem_append.mp hx with h | h
            · exact h
            · rw [List.mem_singleton] at h
              omega
          exact hinv x hx' g hgf
        · by_cases hxe : x = store.length
          · subst hxe
            rw [getD_append_len'] at hgf
            rw [newFlightRow_flight] at hgf
            injection hgf with hg'
            rw [← hg']
            exact hQ f (List.mem_cons_self f t)
          · rw [List.getD_eq_default _ _
              (by rw [List.length_append]; simp only [List.length_cons,
                List.length_nil]; omega)] at hgf
            cases hgf

/-- The updated board's rows carry exactly the sorted, converted
snapshots, in order — provided the snapshot flight numbers are
pairwise distinct, so that Go's pointer map never hands the same
`*FlightRow` to two slice positions. -/
theorem updateFlights_rows_flights (b : Board) (now : Int) (fl : List Flight)
    (hnd : ((updateFlightsSlice b fl).map Flight.flightNumber).Nodup) :
    (b.updateFlights now fl).flights.map FlightRow.flight =
      (updateFlightsSlice b fl).map some := by
  unfold Board.updateFlights
  rw [(updatePagination_fields _).1]
  dsimp only
  rw [List.map_map]
  have hnd' : ((sortSliceGo lessFlight (fl.map (convertFlight b.airportTZ))).map
      Flight.flightNumber).Nodup := hnd
  have hmain := updateRows_foldl_rows (goMapRowsIdx b.flights) now
    (goMapRowsIdx_inj b.flights)
    (sortSliceGo lessFlight (fl.map (convertFlight b.airportTZ)))
    b.flights [] hnd'
    (fun k j hj => (goMapRowsIdx_some b.flights k j hj).1)
    (fun x hx => absurd hx (List.not_mem_nil x))
    (fun g _ i _ hmem => absurd hmem (List.not_mem_nil i))
  simp only [List.map_nil, List.nil_append] at hmain
  exact hmain

/-- Inserting with `sink` permutes: the result holds the new element
and the old ones. -/
theorem sink_perm {α : Type} [Inhabited α] (less : α → α → Bool) (x : α) :
    ∀ r : List α, (sink less x r).Perm (x :: r) := by
  intro r
  induction r with
  | nil => exact List.Perm.refl _
  | cons y ys ih =>
    rw [sink]
    split
    · exact (List.Perm.cons y ih).trans (List.Perm.swap x y ys)
    · exact List.Perm.refl _

theorem foldl_sink_perm {α : Type} [Inhabited α] (less : α → α → Bool) :
    ∀ (l r : List α), (l.foldl (fun r x => sink less x r) r).Perm (l ++ r) := by
  intro l
  induction l with
  | nil => intro r; exact List.Perm.refl _
  | cons x t ih =>
    intro r
    rw [List.foldl_cons]
    exact ((ih (sink less x r)).trans
      (List.Perm.append_left t (sink_perm less x r))).trans List.perm_middle

/-- **C7 (amended)**: for snapshot lists of at most 12 elements —
where Go's `sort.Slice` runs its (stable) insertion sort — whose
flight numbers are pairwise distinct — so that Go's pointer map never
aliases one `*FlightRow` at two positions — `UpdateFlights` leaves
the board's rows carrying the converted snapshots in ascending
scheduled-departure order, and snapshots with equal scheduled times
keep their input order.  (For longer lists the quicksort path of
`sort.Slice` is not stable; see the counterexample.  A flight number
repeated in one snapshot list that matches an existing row makes the
aliased positions all show the last duplicate, so even the order
guarantee fails without distinctness.) -/
theorem updateFlights_sorted_stable (b : Board) (now : Int) (fl : List Flight)
    (hlen : fl.length ≤ 12)
    (hnd : (fl.map Flight.flightNumber).Nodup) :
    ((b.updateFlights now fl).flights.map FlightRow.flight =
      (updateFlightsSlice b fl).map some) ∧
    (updateFlightsSlice b fl).Pairwise
      (fun f g => lessFlight g f = false) ∧
    (∀ t : Int,
      (updateFlightsSlice b fl).filter
          (fun f => decide (f.scheduledDeparture.unix = t)) =
        (fl.filter (fun f => decide (f.scheduledDeparture.unix = t))).map
          (convertFlight b.airportTZ)) := by
  have hconvlen : (fl.map (convertFlight b.airportTZ)).length = fl.length := by
    simp
  have heq : updateFlightsSlice b fl =
      ((fl.map (convertFlight b.airportTZ)).foldl
        (fun r x => sink lessFlight x r) []).reverse := by
    unfold updateFlightsSlice
    rw [sortSliceGo_of_small lessFlight _ (by rw [hconvlen]; exact hlen)]
    rw [insertionSortGo_eq_sinkSort]
  have hperm : (updateFlightsSlice b fl).Perm (fl.map (convertFlight b.airportTZ)) := by
    rw [heq]
    refine (List.reverse_perm _).trans ?_
    have hp := foldl_sink_perm lessFlight (fl.map (convertFlight b.airportTZ)) []
    simpa using hp
  have hndslice : ((updateFlightsSlice b fl).map Flight.flightNumber).Nodup := by
    have hcomp : (fl.map (convertFlight b.airportTZ)).map Flight.flightNumber
        = fl.map Flight.flightNumber := by
      rw [List.map_map]
      apply List.map_congr_left
      intro f _
      exact convertFlight_flightNumber b.airportTZ f
    refine ((hperm.map Flight.flightNumber).nodup_iff).mpr ?_
    rw [hcomp]
    exact hnd
  refine ⟨updateFlights_rows_flights b now fl hndslice, ?_, ?_⟩
  · rw [heq, List.pairwise_reverse]
    exact foldl_sink_pairwise lessFlight lessFlight_asymm lessFlight_neg_trans
      (fl.map (convertFlight b.airportTZ)) [] (List.Pairwise.nil)
  · intro t
    rw [heq]
    rw [foldl_sink_filter lessFlight _ (lessFlight_key t)
      (fl.map (convertFlight b.airportTZ)) []]
    rw [List.filter_map]
    simp only [List.reverse_nil, List.filter_nil, List.nil_append]
    congr 1
    apply List.filter_congr
    intro f _
    show decide ((convertFlight b.airportTZ f).scheduledDeparture.unix = t) =
      decide (f.scheduledDeparture.unix = t)
    rw [convertFlight_sched_unix]

/-- A minimal snapshot with the given flight number and scheduled
time (unix seconds, UTC offset 0). -/
def cexFlightMk (fn : String) (t : Int) : Flight :=
  { status := FlightStatus.onTime, airlineCode := "", airlineName := "",
    flightNumber := fn, destinationCode := "", destinationCity := "",
    gate := "", remarks := "",
    scheduledDeparture := { unix := t, offset := 0 },
    estimatedDeparture := none }

/-- Thirteen snapshots: descending times, the last two tied.  With 13
elements `sort.Slice` takes the quicksort path, whose partition step
swaps the tied pair. -/
def cexFlights : List Flight :=
  [cexFlightMk "F01" 720, cexFlightMk "F02" 660, cexFlightMk "F03" 600,
   cexFlightMk "F04" 540, cexFlightMk "F05" 480, cexFlightMk "F06" 420,
   cexFlightMk "F07" 360, cexFlightMk "F08" 300, cexFlightMk "F09" 240,
   cexFlightMk "F10" 180, cexFlightMk "F11" 120, cexFlightMk "F12" 60,
   cexFlightMk "F13" 60]

/-- Counterexample to C7 as stated: on this 13-snapshot input the
board's resulting row order puts "F13" before "F12" although both
have the same scheduled time and "F12" came first in the input — the
tie-break is not stable (Go's `sort.Slice` is unstable beyond the
12-element insertion-sort cutoff).  The output is still sorted by
time; only the stability half of the claim fails. -/
theorem updateFlights_stability_counterexample :
    (cexFlightMk "F12" 60).scheduledDeparture.unix =
      (cexFlightMk "F13" 60).scheduledDeparture.unix ∧
    cexFlights.map Flight.flightNumber =
      ["F01", "F02", "F03", "F04", "F05", "F06", "F07", "F08", "F09",
       "F10", "F11", "F12", "F13"] ∧
    (((newBoard "JFK" none 15).updateFlights 0 cexFlights).flights.map
        (fun r => (r.flight.map Flight.flightNumber).getD "")) =
      ["F13", "F12", "F11", "F10", "F09", "F08", "F07", "F06", "F05",
       "F04", "F03", "F02", "F01"] ∧
    ¬ ((updateFlightsSlice (newBoard "JFK" none 15) cexFlights).filter
          (fun f => decide (f.scheduledDeparture.unix = 60)) =
        (cexFlights.filter (fun f => decide (f.scheduledDeparture.unix = 60))).map
          (convertFlight (newBoard "JFK" none 15).airportTZ)) := by
  refine ⟨rfl, rfl, ?_, ?_⟩
  · have hslice : updateFlightsSlice (newBoard "JFK" none 15) cexFlights =
        [cexFlightMk "F13" 60, cexFlightMk "F12" 60, cexFlightMk "F11" 120,
         cexFlightMk "F10" 180, cexFlightMk "F09" 240, cexFlightMk "F08" 300,
         cexFlightMk "F07" 360, cexFlightMk "F06" 420, cexFlightMk "F05" 480,
         cexFlightMk "F04" 540, cexFlightMk "F03" 600, cexFlightMk "F02" 660,
         cexFlightMk "F01" 720] := rfl
    have hndc : ((updateFlightsSlice (newBoard "JFK" none 15) cexFlights).map
        Flight.flightNumber).Nodup := by
      rw [hslice]
      decide
    rw [show (fun r : FlightRow => (r.flight.map Flight.flightNumber).getD "") =
        ((fun o : Option Flight => (o.map Flight.flightNumber).getD "") ∘
          FlightRow.flight) from rfl]
    rw [← List.map_map]
    rw [updateFlights_rows_flights (newBoard "JFK" none 15) 0 cexFlights hndc]
    rw [List.map_map]
    rfl
  · intro hcontra
    have h1 : (updateFlightsSlice (newBoard "JFK" none 15) cexFlights).filter
          (fun f => decide (f.scheduledDeparture.unix = 60)) =
        [cexFlightMk "F13" 60, cexFlightMk "F12" 60] := rfl
    have h2 : (cexFlights.filter
          (fun f => decide (f.scheduledDeparture.unix = 60))).map
          (convertFlight (newBoard "JFK" none 15).airportTZ) =
        [cexFlightMk "F12" 60, cexFlightMk "F13" 60] := rfl
    rw [h1, h2] at hcontra
    exact absurd hcontra (by decide)

/-! ## Delayed-remarks synthesis (C8)

`pdqsort` moves data only with swaps (plus, in the model, the
`default` value of a never-exercised out-of-range read), so every
element of `sort.Slice`'s output satisfies any predicate that holds
of every input element and of `default`. -/

section SortMem

variable {α : Type} [Inhabited α] (less : α → α → Bool) (P : α → Prop)

theorem geti_P (hPd : P default) {l : List α} (h : ∀ x ∈ l, P x) (i : Int) :
    P (geti l i) := by
  unfold geti
  split
  · rcases Nat.lt_or_ge i.toNat l.length with hh | hh
    · rw [List.getD_eq_getElem l default hh]
      exact h _ (List.getElem_mem hh)
    · rw [List.getD_eq_default _ _ hh]
      exact hPd
  · exact hPd

theorem seti_P {l : List α} (h : ∀ x ∈ l, P x) (i : Int) {v : α} (hv : P v) :
    ∀ y ∈ seti l i v, P y := by
  intro y hy
  unfold seti at hy
  split at hy
  · rcases List.mem_or_eq_of_mem_set hy with h' | h'
    · exact h _ h'
    · rwa [h']
  · exact h _ hy

theorem lswap_P (hPd : P default) {l : List α} (h : ∀ x ∈ l, P x) (i j : Int) :
    ∀ y ∈ lswap l i j, P y := by
  intro y hy
  unfold lswap at hy
  exact seti_P P (seti_P P h i (geti_P P hPd h j)) j (geti_P P hPd h i) y hy

theorem insSortInner_P (hPd : P default) (a : Int) :
    ∀ (fuel : Nat) (l : List α) (j : Int), (∀ x ∈ l, P x) →
      ∀ y ∈ insSortInner less a fuel l j, P y := by
  intro fuel
  induction fuel with
  | zero => intro l j h y hy; exact h y hy
  | succ f ih =>
    intro l j h y hy
    rw [insSortInner] at hy
    split at hy
    · exact ih _ _ (lswap_P P hPd h _ _) y hy
    · exact h y hy

theorem insSortOuter_P (hPd : P default) (a b : Int) :
    ∀ (fuel : Nat) (l : List α) (i : Int), (∀ x ∈ l, P x) →
      ∀ y ∈ insSortOuter less a b fuel l i, P y := by
  intro fuel
  induction fuel with
  | zero => intro l i h y hy; exact h y hy
  | succ f ih =>
    intro l i h y hy
    rw [insSortOuter] at hy
    split at hy
    · exact ih _ _ (insSortInner_P less P hPd a _ _ _ h) y hy
    · exact h y hy

theorem insertionSortGo_P (hPd : P default) (l : List α) (a b : Int)
    (h : ∀ x ∈ l, P x) : ∀ y ∈ insertionSortGo less l a b, P y := by
  unfold insertionSortGo
  exact insSortOuter_P less P hPd a b _ l _ h

theorem siftDownLoop_P (hPd : P default) (hi first : Int) :
    ∀ (fuel : Nat) (l : List α) (root : Int), (∀ x ∈ l, P x) →
      ∀ y ∈ siftDownLoop less hi first fuel l root, P y := by
  intro fuel
  induction fuel with
  | zero => intro l root h y hy; exact h y hy
  | succ f ih =>
    intro l root h y hy
    rw [siftDownLoop] at hy
    dsimp only at hy
    repeat' split at hy
    all_goals
      first
      | exact h y hy
      | exact ih _ _ (lswap_P P hPd h _ _) y hy

theorem siftDownGo_P (hPd : P default) (l : List α) (lo hi first : Int)
    (h : ∀ x ∈ l, P x) : ∀ y ∈ siftDownGo less l lo hi first, P y := by
  unfold siftDownGo
  exact siftDownLoop_P less P hPd hi first _ l lo h

theorem heapBuildLoop_P (hPd : P default) (hi first : Int) :
    ∀ (fuel : Nat) (l : List α), (∀ x ∈ l, P x) →
      ∀ y ∈ heapBuildLoop less hi first fuel l, P y := by
  intro fuel
  induction fuel with
  | zero => intro l h y hy; exact h y hy
  | succ n ih =>
    intro l h y hy
    rw [heapBuildLoop] at hy
    exact ih _ (siftDownGo_P less P hPd _ _ _ _ h) y hy

theorem heapPopLoop_P (hPd : P default) (first : Int) :
    ∀ (fuel : Nat) (l : List α), (∀ x ∈ l, P x) →
      ∀ y ∈ heapPopLoop less first fuel l, P y := by
  intro fuel
  induction fuel with
  | zero => intro l h y hy; exact h y hy
  | succ n ih =>
    intro l h y hy
    rw [heapPopLoop] at hy
    exact ih _ (siftDownGo_P less P hPd _ _ _ _ (lswap_P P hPd h _ _)) y hy

theorem heapSortGo_P (hPd : P default) (l : List α) (a b : Int)
    (h : ∀ x ∈ l, P x) : ∀ y ∈ heapSortGo less l a b, P y := by
  unfold heapSortGo
  exact heapPopLoop_P less P hPd _ _ _ (heapBuildLoop_P less P hPd _ _ _ _ h)

theorem reverseRangeLoop_P (hPd : P default) :
    ∀ (fuel : Nat) (l : List α) (i j : Int), (∀ x ∈ l, P x) →
      ∀ y ∈ reverseRangeLoop fuel l i j, P y := by
  intro fuel
  induction fuel with
  | zero => intro l i j h y hy; exact h y hy
  | succ f ih =>
    intro l i j h y hy
    rw [reverseRangeLoop] at hy
    split at hy
    · exact ih _ _ _ (lswap_P P hPd h _ _) y hy
    · exact h y hy

theorem reverseRangeGo_P (hPd : P default) (l : List α) (a b : Int)
    (h : ∀ x ∈ l, P x) : ∀ y ∈ reverseRangeGo l a b, P y := by
  unfold reverseRangeGo
  exact reverseRangeLoop_P P hPd _ l _ _ h

theorem breakPatternsGo_P (hPd : P default) (l : List α) (a b : Int)
    (h : ∀ x ∈ l, P x) : ∀ y ∈ breakPatternsGo l a b, P y := by
  intro y hy
  unfold breakPatternsGo at hy
  dsimp only at hy
  split at hy
  · exact lswap_P P hPd (lswap_P P hPd (lswap_P P hPd h _ _) _ _) _ _ y hy
  · exact h y hy

theorem shiftLeftLoop_P (hPd : P default) (a : Int) :
    ∀ (fuel : Nat) (l : List α) (j : Int), (∀ x ∈ l, P x) →
      ∀ y ∈ shiftLeftLoop less a fuel l j, P y := by
  intro fuel
  induction fuel with
  | zero => intro l j h y hy; exact h y hy
  | succ f ih =>
    intro l j h y hy
    rw [shiftLeftLoop] at hy
    split at hy
    · exact ih _ _ (lswap_P P hPd h _ _) y hy
    · exact h y hy

theorem shiftRightLoop_P (hPd : P default) (b : Int) :
    ∀ (fuel : Nat) (l : List α) (j : Int), (∀ x ∈ l, P x) →
      ∀ y ∈ shiftRightLoop less b fuel l j, P y := by
  intro fuel
  induction fuel with
  | zero => intro l j h y hy; exact h y hy
  | succ f ih =>
    intro l j h y hy
    rw [shiftRightLoop] at hy
    split at hy
    · exact ih _ _ (lswap_P P hPd h _ _) y hy
    · exact h y hy

theorem partialInsSortLoop_P (hPd : P default) (a b : Int) :
    ∀ (steps : Nat) (l : List α) (i : Int), (∀ x ∈ l, P x) →
      ∀ y ∈ (partialInsSortLoop less a b steps l i).1, P y := by
  intro steps
  induction steps with
  | zero => intro l i h y hy; exact h y hy
  | succ s ih =>
    intro l i h y hy
    rw [partialInsSortLoop] at hy
    dsimp only at hy
    repeat' split at hy
    all_goals
      first
      | exact h y hy
      | exact ih _ _ (shiftRightLoop_P less P hPd b _ _ _
          (shiftLeftLoop_P less P hPd a _ _ _ (lswap_P P hPd h _ _))) y hy
      | exact ih _ _ (shiftRightLoop_P less P hPd b _ _ _
          (lswap_P P hPd h _ _)) y hy
      | exact ih _ _ (shiftLeftLoop_P less P hPd a _ _ _
          (lswap_P P hPd h _ _)) y hy
      | exact ih _ _ (lswap_P P hPd h _ _) y hy

theorem partialInsertionSortGo_P (hPd : P default) (l : List α) (a b : Int)
    (h : ∀ x ∈ l, P x) : ∀ y ∈ (partialInsertionSortGo less l a b).1, P y := by
  unfold partialInsertionSortGo
  exact partialInsSortLoop_P less P hPd a b _ l _ h

theorem partitionLoop_P (hPd : P default) (aIdx : Int) :
    ∀ (fuel : Nat) (l : List α) (i j : Int), (∀ x ∈ l, P x) →
      ∀ y ∈ (partitionLoop less aIdx fuel l i j).1, P y := by
  intro fuel
  induction fuel with
  | zero => intro l i j h y hy; exact h y hy
  | succ f ih =>
    intro l i j h y hy
    rw [partitionLoop] at hy
    try dsimp only at hy
    repeat' split at hy
    all_goals
      first
      | exact h y hy
      | exact ih _ _ _ (lswap_P P hPd h _ _) y hy

theorem partitionGo_P (hPd : P default) (l : List α) (a b pivot : Int)
    (h : ∀ x ∈ l, P x) : ∀ y ∈ (partitionGo less l a b pivot).1, P y := by
  intro y hy
  unfold partitionGo at hy
  dsimp only at hy
  split at hy
  · exact lswap_P P hPd (lswap_P P hPd h _ _) _ _ y hy
  · exact lswap_P P hPd
      (partitionLoop_P less P hPd a _ _ _ _
        (lswap_P P hPd (lswap_P P hPd h _ _) _ _)) _ _ y hy

theorem partitionEqualLoop_P (hPd : P default) (aIdx : Int) :
    ∀ (fuel : Nat) (l : List α) (i j : Int), (∀ x ∈ l, P x) →
      ∀ y ∈ (partitionEqualLoop less aIdx fuel l i j).1, P y := by
  intro fuel
  induction fuel with
  | zero => intro l i j h y hy; exact h y hy
  | succ f ih =>
    intro l i j h y hy
    rw [partitionEqualLoop] at hy
    try dsimp only at hy
    repeat' split at hy
    all_goals
      first
      | exact h y hy
      | exact ih _ _ _ (lswap_P P hPd h _ _) y hy

theorem partitionEqualGo_P (hPd : P default) (l : List α) (a b pivot : Int)
    (h : ∀ x ∈ l, P x) : ∀ y ∈ (partitionEqualGo less l a b pivot).1, P y := by
  unfold partitionEqualGo
  exact partitionEqualLoop_P less P hPd a _ _ _ _ (lswap_P P hPd h _ _)

set_option maxHeartbeats 1600000 in
theorem pdqsortLoop_P (hPd : P default) :
    ∀ (fuel : Nat) (l : List α) (a b limit : Int) (wb wp : Bool),
      (∀ x ∈ l, P x) → ∀ y ∈ pdqsortLoop less fuel l a b limit wb wp, P y := by
  intro fuel
  induction fuel with
  | zero => intro l a b limit wb wp h y hy; exact h y hy
  | succ f ih =>
    intro l a b limit wb wp h y hy
    simp only [pdqsortLoop] at hy
    split at hy
    · exact insertionSortGo_P less P hPd _ _ _ h y hy
    split at hy
    · exact heapSortGo_P less P hPd _ _ _ h y hy
    set l1 := (if wb = false then breakPatternsGo l a b else l) with hl1def
    have hL1 : ∀ x ∈ l1, P x := by
      rw [hl1def]
      split
      · exact breakPatternsGo_P P hPd _ _ _ h
      · exact h
    set ph := choosePivotGo less l1 a b with hphdef
    set l2 := (if ph.2 = SortedHint.decreasing then reverseRangeGo l1 a b else l1)
      with hl2def
    have hL2 : ∀ x ∈ l2, P x := by
      rw [hl2def]
      split
      · exact reverseRangeGo_P P hPd _ _ _ hL1
      · exact hL1
    set pivot := (if ph.2 = SortedHint.decreasing then b - 1 - (ph.1 - a) else ph.1)
      with hpivdef
    set hint := (if ph.2 = SortedHint.decreasing then SortedHint.increasing else ph.2)
      with hhintdef
    set pis := (if wb = true ∧ wp = true ∧ hint = SortedHint.increasing
      then partialInsertionSortGo less l2 a b else (l2, false)) with hpisdef
    have hPis : ∀ x ∈ pis.1, P x := by
      rw [hpisdef]
      split
      · exact partialInsertionSortGo_P less P hPd _ _ _ hL2
      · exact hL2
    split at hy
    · exact hPis y hy
    split at hy
    · exact ih _ _ _ _ _ _ (partitionEqualGo_P less P hPd _ _ _ _ hPis) y hy
    · split at hy
      · exact ih _ _ _ _ _ _
          (ih _ _ _ _ _ _ (partitionGo_P less P hPd _ _ _ _ hPis)) y hy
      · exact ih _ _ _ _ _ _
          (ih _ _ _ _ _ _ (partitionGo_P less P hPd _ _ _ _ hPis)) y hy

/-- Membership preservation for `sort.Slice`: every output element is
an input element (or `default`, which no in-range execution reads). -/
theorem sortSliceGo_P (hPd : P default) (l : List α) (h : ∀ x ∈ l, P x) :
    ∀ y ∈ sortSliceGo less l, P y := by
  unfold sortSliceGo
  exact pdqsortLoop_P less P hPd _ l _ _ _ _ _ h

end SortMem

/-! Length preservation: every Go sort helper swaps in place and so
keeps the slice length. -/

section SortLen

variable {α : Type} [Inhabited α] (less : α → α → Bool)

theorem seti_len (l : List α) (i : Int) (v : α) : (seti l i v).length = l.length := by
  unfold seti
  split
  · exact List.length_set l _ v
  · rfl

theorem lswap_len (l : List α) (i j : Int) : (lswap l i j).length = l.length := by
  unfold lswap
  rw [seti_len, seti_len]

theorem insSortInner_len (a : Int) :
    ∀ (fuel : Nat) (l : List α) (j : Int),
      (insSortInner less a fuel l j).length = l.length := by
  intro fuel
  induction fuel with
  | zero => intro l j; rfl
  | succ f ih =>
    intro l j
    rw [insSortInner]
    split
    · rw [ih, lswap_len]
    · rfl

theorem insSortOuter_len (a b : Int) :
    ∀ (fuel : Nat) (l : List α) (i : Int),
      (insSortOuter less a b fuel l i).length = l.length := by
  intro fuel
  induction fuel with
  | zero => intro l i; rfl
  | succ f ih =>
    intro l i
    rw [insSortOuter]
    split
    · rw [ih, insSortInner_len]
    · rfl

theorem insertionSortGo_len (l : List α) (a b : Int) :
    (insertionSortGo less l a b).length = l.length := by
  unfold insertionSortGo
  rw [insSortOuter_len]

theorem siftDownLoop_len (hi first : Int) :
    ∀ (fuel : Nat) (l : List α) (root : Int),
      (siftDownLoop less hi first fuel l root).length = l.length := by
  intro fuel
  induction fuel with
  | zero => intro l root; rfl
  | succ f ih =>
    intro l root
    rw [siftDownLoop]
    dsimp only
    repeat' split
    all_goals first
      | rfl
      | rw [ih, lswap_len]

theorem siftDownGo_len (l : List α) (lo hi first : Int) :
    (siftDownGo less l lo hi first).length = l.length := by
  unfold siftDownGo
  rw [siftDownLoop_len]

theorem heapBuildLoop_len (hi first : Int) :
    ∀ (fuel : Nat) (l : List α), (heapBuildLoop less hi first fuel l).length
      = l.length := by
  intro fuel
  induction fuel with
  | zero => intro l; rfl
  | succ n ih =>
    intro l
    rw [heapBuildLoop]
    rw [ih, siftDownGo_len]

theorem heapPopLoop_len (first : Int) :
    ∀ (fuel : Nat) (l : List α), (heapPopLoop less first fuel l).length
      = l.length := by
  intro fuel
  induction fuel with
  | zero => intro l; rfl
  | succ n ih =>
    intro l
    rw [heapPopLoop]
    rw [ih, siftDownGo_len, lswap_len]

theorem heapSortGo_len (l : List α) (a b : Int) :
    (heapSortGo less l a b).length = l.length := by
  unfold heapSortGo
  rw [heapPopLoop_len, heapBuildLoop_len]

theorem reverseRangeLoop_len :
    ∀ (fuel : Nat) (l : List α) (i j : Int),
      (reverseRangeLoop fuel l i j).length = l.length := by
  intro fuel
  induction fuel with
  | zero => intro l i j; rfl
  | succ f ih =>
    intro l i j
    rw [reverseRangeLoop]
    split
    · rw [ih, lswap_len]
    · rfl

theorem reverseRangeGo_len (l : List α) (a b : Int) :
    (reverseRangeGo l a b).length = l.length := by
  unfold reverseRangeGo
  rw [reverseRangeLoop_len]

theorem breakPatternsGo_len (l : List α) (a b : Int) :
    (breakPatternsGo l a b).length = l.length := by
  unfold breakPatternsGo
  dsimp only
  split
  · rw [lswap_len, lswap_len, lswap_len]
  · rfl

theorem shiftLeftLoop_len (a : Int) :
    ∀ (fuel : Nat) (l : List α) (j : Int),
      (shiftLeftLoop less a fuel l j).length = l.length := by
  intro fuel
  induction fuel with
  | zero => intro l j; rfl
  | succ f ih =>
    intro l j
    rw [shiftLeftLoop]
    split
    · rw [ih, lswap_len]
    · rfl

theorem shiftRightLoop_len (b : Int) :
    ∀ (fuel : Nat) (l : List α) (j : Int),
      (shiftRightLoop less b fuel l j).length = l.length := by
  intro fuel
  induction fuel with
  | zero => intro l j; rfl
  | succ f ih =>
    intro l j
    rw [shiftRightLoop]
    split
    · rw [ih, lswap_len]
    · rfl

theorem partialInsSortLoop_len (a b : Int) :
    ∀ (steps : Nat) (l : List α) (i : Int),
      (partialInsSortLoop less a b steps l i).1.length = l.length := by
  intro steps
  induction steps with
  | zero => intro l i; rfl
  | succ s ih =>
    intro l i
    rw [partialInsSortLoop]
    dsimp only
    repeat' split
    all_goals first
      | rfl
      | rw [ih, shiftRightLoop_len, shiftLeftLoop_len, lswap_len]
      | rw [ih, shiftRightLoop_len, lswap_len]
      | rw [ih, shiftLeftLoop_len, lswap_len]
      | rw [ih, lswap_len]

theorem partialInsertionSortGo_len (l : List α) (a b : Int) :
    (partialInsertionSortGo less l a b).1.length = l.length := by
  unfold partialInsertionSortGo
  rw [partialInsSortLoop_len]

theorem partitionLoop_len (aIdx : Int) :
    ∀ (fuel : Nat) (l : List α) (i j : Int),
      (partitionLoop less aIdx fuel l i j).1.length = l.length := by
  intro fuel
  induction fuel with
  | zero => intro l i j; rfl
  | succ f ih =>
    intro l i j
    rw [partitionLoop]
    try dsimp only
    repeat' split
    all_goals first
      | rfl
      | rw [ih, lswap_len]

theorem partitionGo_len (l : List α) (a b pivot : Int) :
    (partitionGo less l a b pivot).1.length = l.length := by
  unfold partitionGo
  dsimp only
  split
  · rw [lswap_len, lswap_len]
  · rw [lswap_len, partitionLoop_len, lswap_len, lswap_len]

theorem partitionEqualLoop_len (aIdx : Int) :
    ∀ (fuel : Nat) (l : List α) (i j : Int),
      (partitionEqualLoop less aIdx fuel l i j).1.length = l.length := by
  intro fuel
  induction fuel with
  | zero => intro l i j; rfl
  | succ f ih =>
    intro l i j
    rw [partitionEqualLoop]
    try dsimp only
    repeat' split
    all_goals first
      | rfl
      | rw [ih, lswap_len]

theorem partitionEqualGo_len (l : List α) (a b pivot : Int) :
    (partitionEqualGo less l a b pivot).1.length = l.length := by
  unfold partitionEqualGo
  rw [partitionEqualLoop_len, lswap_len]

set_option maxHeartbeats 1600000 in
theorem pdqsortLoop_len :
    ∀ (fuel : Nat) (l : List α) (a b limit : Int) (wb wp : Bool),
      (pdqsortLoop less fuel l a b limit wb wp).length = l.length := by
  intro fuel
  induction fuel with
  | zero => intro l a b limit wb wp; rfl
  | succ f ih =>
    intro l a b limit wb wp
    simp only [pdqsortLoop]
    split
    · exact insertionSortGo_len less l a b
    split
    · exact heapSortGo_len less l a b
    set l1 := (if wb = false then breakPatternsGo l a b else l) with hl1def
    have hL1 : l1.length = l.length := by
      rw [hl1def]
      split
      · exact breakPatternsGo_len l a b
      · rfl
    set ph := choosePivotGo less l1 a b with hphdef
    set l2 := (if ph.2 = SortedHint.decreasing then reverseRangeGo l1 a b else l1)
      with hl2def
    have hL2 : l2.length = l.length := by
      rw [hl2def]
      split
      · rw [reverseRangeGo_len, hL1]
      · exact hL1
    set pivot := (if ph.2 = SortedHint.decreasing then b - 1 - (ph.1 - a) else ph.1)
      with hpivdef
    set hint := (if ph.2 = SortedHint.decreasing then SortedHint.increasing else ph.2)
      with hhintdef
    set pis := (if wb = true ∧ wp = true ∧ hint = SortedHint.increasing
      then partialInsertionSortGo less l2 a b else (l2, false)) with hpisdef
    have hPis : pis.1.length = l.length := by
      rw [hpisdef]
      split
      · rw [partialInsertionSortGo_len, hL2]
      · exact hL2
    split
    · exact hPis
    split
    · rw [ih, partitionEqualGo_len, hPis]
    · split
      · rw [ih, ih, partitionGo_len, hPis]
      · rw [ih, ih, partitionGo_len, hPis]

theorem sortSliceGo_len (l : List α) : (sortSliceGo less l).length = l.length := by
  unfold sortSliceGo
  rw [pdqsortLoop_len]

end SortLen

/-- Whatever duplicate keys do to the row *positions*, every row the
board ends up with reads back some converted snapshot (or the
embedding's `default` for an out-of-range read the sort never
performs in range). -/
theorem updateFlights_rows_mem (b : Board) (now : Int) (fl : List Flight) :
    ∀ r ∈ (b.updateFlights now fl).flights, ∀ f, r.flight = some f →
      f ∈ fl.map (convertFlight b.airportTZ) ∨ f = default := by
  intro r hr f hrf
  unfold Board.updateFlights at hr
  rw [(updatePagination_fields _).1] at hr
  dsimp only at hr
  rw [List.mem_map] at hr
  obtain ⟨i, hi, hrow⟩ := hr
  refine updateRows_foldl_flightQ (goMapRowsIdx b.flights) now
    (fun g => g ∈ fl.map (convertFlight b.airportTZ) ∨ g = default)
    (sortSliceGo lessFlight (fl.map (convertFlight b.airportTZ)))
    b.flights []
    (fun x hx => sortSliceGo_P lessFlight
      (fun g => g ∈ fl.map (convertFlight b.airportTZ) ∨ g = default)
      (Or.inr rfl) _ (fun y hy => Or.inl hy) x hx)
    (fun x hx => absurd hx (List.not_mem_nil x))
    i hi f ?_
  rw [hrow]
  exact hrf

/-- The remark a converted delayed-with-estimate snapshot carries. -/
theorem convertFlight_delayed (off : Int) (g : Flight)
    (hst : (convertFlight (some off) g).status = FlightStatus.delayed)
    (e : GoTime) (hest : (convertFlight (some off) g).estimatedDeparture = some e) :
    (convertFlight (some off) g).remarks = "Delayed EST: " ++ e.format1504 ∧
      e.offset = off := by
  unfold convertFlight at hst hest ⊢
  dsimp only at hst hest ⊢
  cases hge : g.estimatedDeparture with
  | none =>
    rw [hge] at hest
    dsimp only at hest
    cases hest
  | some e0 =>
    rw [hge] at hst hest
    dsimp only at hst hest ⊢
    by_cases hsd : g.status = FlightStatus.delayed
    · rw [if_pos hsd] at hest ⊢
      dsimp only at hest ⊢
      injection hest with he
      subst he
      exact ⟨rfl, rfl⟩
    · rw [if_neg hsd] at hst
      dsimp only at hst
      exact absurd hst hsd

/-- **C8** (delayed-remarks synthesis): after `UpdateFlights` on a
board with a configured timezone, every row snapshot that is
`Delayed` and carries an estimated departure has its remarks set to
exactly `"Delayed EST: HH:MM"` with `HH:MM` the estimate formatted in
the board's timezone (the estimate held by the row is already the
converted, airport-local one). -/
theorem delayed_remarks (b : Board) (now : Int) (fl : List Flight) (off : Int)
    (htz : b.airportTZ = some off) :
    ∀ r ∈ (b.updateFlights now fl).flights, ∀ f, r.flight = some f →
      f.status = FlightStatus.delayed →
      ∀ e, f.estimatedDeparture = some e →
        f.remarks = "Delayed EST: " ++ e.format1504 ∧ e.offset = off := by
  intro r hr f hrf hst e hest
  have hP := updateFlights_rows_mem b now fl r hr f hrf
  rcases hP with hin | hdef
  · rw [List.mem_map] at hin
    obtain ⟨g, _, hconv⟩ := hin
    rw [htz] at hconv
    subst hconv
    exact convertFlight_delayed off g hst e hest
  · rw [hdef] at hst
    cases hst

/-- The concrete delayed flight used to witness C8: estimated time
14:30 airport-local. -/
def c8Flight : Flight :=
  { status := FlightStatus.delayed, airlineCode := "BA", airlineName := "BA",
    flightNumber := "BA114", destinationCode := "LHR",
    destinationCity := "London", gate := "A1", remarks := "On Time",
    scheduledDeparture := { unix := 36000, offset := 3600 },
    estimatedDeparture := some { unix := 52200, offset := 3600 } }

/-- Witness for C8: a board in a zero-offset timezone receiving the
delayed snapshot; its single row's remarks read exactly
"Delayed EST: 14:30". -/
theorem delayed_remarks_witness :
    ((newBoard "JFK" (some 0) 15).airportTZ = some 0) ∧
    (∀ r ∈ ((newBoard "JFK" (some 0) 15).updateFlights 0 [c8Flight]).flights,
      ∀ f, r.flight = some f → f.status = FlightStatus.delayed →
      ∀ e, f.estimatedDeparture = some e →
        f.remarks = "Delayed EST: " ++ e.format1504 ∧ e.offset = 0) ∧
    (((newBoard "JFK" (some 0) 15).updateFlights 0 [c8Flight]).flights.map
      (fun r => (r.flight.map Flight.remarks).getD "")) = ["Delayed EST: 14:30"] :=
  ⟨rfl, delayed_remarks (newBoard "JFK" (some 0) 15) 0 [c8Flight] 0 rfl, rfl⟩

/-- Witness for the amended C7: two flights with descending times are
returned in ascending order. -/
theorem updateFlights_sorted_stable_witness :
    ([cexFlightMk "AA2" 120, cexFlightMk "AA1" 60].length ≤ 12) ∧
    (([cexFlightMk "AA2" 120, cexFlightMk "AA1" 60].map
      Flight.flightNumber).Nodup) ∧
    (updateFlightsSlice (newBoard "JFK" none 15)
        [cexFlightMk "AA2" 120, cexFlightMk "AA1" 60]).Pairwise
      (fun f g => lessFlight g f = false) :=
  ⟨by decide, by decide,
    (updateFlights_sorted_stable (newBoard "JFK" none 15) 0
      [cexFlightMk "AA2" 120, cexFlightMk "AA1" 60] (by decide) (by decide)).2.1⟩

/-! ## Error handling is purely presentational (C9) -/

theorem updateFlights_error (b : Board) (now : Int) (fl : List Flight) :
    (b.updateFlights now fl).error = b.error := by
  unfold Board.updateFlights
  exact (updatePagination_fields _).2.2.2.2

/-- **C9** (source-unavailable handling is presentational): a failed
fetch stores the message in the board's error string and touches
nothing else — rows, pagination, page size, airport and timezone are
bit-for-bit the last good state, `UpdateFlights` is not applied; the
next render inserts an "ERROR: " banner directly under the airport
header and otherwise shows the last good frame; any later successful
fetch clears the error string. -/
theorem error_path_presentational (m : AppModel) (now : Int) (fl : List Flight)
    (e : String) (he : e ≠ "") :
    (handleFlightsMsg m now { flights := fl, err := some e }).loading = false ∧
    (handleFlightsMsg m now { flights := fl, err := some e }).err = some e ∧
    (handleFlightsMsg m now { flights := fl, err := some e }).board.error = e ∧
    (handleFlightsMsg m now { flights := fl, err := some e }).board.flights
      = m.board.flights ∧
    (handleFlightsMsg m now { flights := fl, err := some e }).board.currentPage
      = m.board.currentPage ∧
    (handleFlightsMsg m now { flights := fl, err := some e }).board.totalPages
      = m.board.totalPages ∧
    (handleFlightsMsg m now { flights := fl, err := some e }).board.flightsPerPage
      = m.board.flightsPerPage ∧
    (handleFlightsMsg m now { flights := fl, err := some e }).board.airportCode
      = m.board.airportCode ∧
    (handleFlightsMsg m now { flights := fl, err := some e }).board.airportTZ
      = m.board.airportTZ ∧
    (handleFlightsMsg m now { flights := fl, err := some e }).board.render
      = String.intercalate "\n"
          ([m.board.renderAirportHeader] ++ ["ERROR: " ++ e] ++
            [m.board.renderHeader] ++
            (m.board.getCurrentPageFlights.map FlightRow.render) ++
            [m.board.renderPageInfo]) ∧
    (∀ (m2 : AppModel) (now2 : Int) (fl2 : List Flight),
      (handleFlightsMsg m2 now2 { flights := fl2, err := none }).board.error
        = "") := by
  refine ⟨rfl, rfl, rfl, rfl, rfl, rfl, rfl, rfl, rfl, ?_, ?_⟩
  · show Board.render { m.board with error := e } = _
    unfold Board.render
    dsimp only
    rw [if_pos he]
    rfl
  · intro m2 now2 fl2
    show (Board.updateFlights { m2.board with error := "" } now2 fl2).error = ""
    rw [updateFlights_error]

/-- Witness for C9 at a concrete model and error message. -/
theorem error_path_presentational_witness :
    ("API timeout" ≠ "") ∧
    ((handleFlightsMsg
        { board := newBoard "JFK" (some 0) 15, loading := true, err := none }
        5 { flights := [], err := some "API timeout" }).board.error
      = "API timeout") ∧
    ((handleFlightsMsg
        { board := newBoard "JFK" (some 0) 15, loading := true, err := none }
        5 { flights := [], err := some "API timeout" }).board.flights
      = (newBoard "JFK" (some 0) 15).flights) :=
  ⟨by decide,
    (error_path_presentational
      { board := newBoard "JFK" (some 0) 15, loading := true, err := none }
      5 [] "API timeout" (by decide)).2.2.1,
    (error_path_presentational
      { board := newBoard "JFK" (some 0) 15, loading := true, err := none }
      5 [] "API timeout" (by decide)).2.2.2.1⟩

/-! ## The snapshot slice is mutated in place (C10) -/

/-- What `convertFlight` does to one slice element. -/
theorem convertFlight_effects (off : Int) (f : Flight) :
    (convertFlight (some off) f).scheduledDeparture
      = f.scheduledDeparture.inTZ off ∧
    (convertFlight (some off) f).estimatedDeparture
      = f.estimatedDeparture.map (GoTime.inTZ off) ∧
    (f.status = FlightStatus.delayed → ∀ e, f.estimatedDeparture = some e →
      (convertFlight (some off) f).remarks
        = "Delayed EST: " ++ (e.inTZ off).format1504) ∧
    (convertFlight (some off) f).flightNumber = f.flightNumber := by
  unfold convertFlight
  dsimp only
  cases hge : f.estimatedDeparture with
  | none =>
    refine ⟨rfl, rfl, ?_, rfl⟩
    intro _ e hee
    cases hee
  | some e0 =>
    dsimp only
    by_cases hsd : f.status = FlightStatus.delayed
    · rw [if_pos hsd]
      refine ⟨rfl, rfl, ?_, rfl⟩
      intro _ e hee
      injection hee with he
      subst he
      rfl
    · rw [if_neg hsd]
      refine ⟨rfl, rfl, ?_, rfl⟩
      intro hd _ _
      exact absurd hd hsd

/-- **C10** (in-place mutation of the caller's slice, value level): the
slice the caller handed to `UpdateFlights` comes back reordered by the
sort, same length, with every element's departure times overwritten by
their timezone-converted values and delayed elements' remarks
overwritten; every row the board ends up with reads back one of those
converted slice elements, and when the snapshot flight numbers are
pairwise distinct the rows are exactly the slice elements in slice
order.  (A repeated flight number matching an existing row makes Go
alias one `*FlightRow` at several positions — all showing the last
duplicate — which is why the exact-rows conjunct is conditional.  That
the rows alias the slice cells as Go pointers is a memory-layout fact
below the value-level embedding; what is proved is that the caller's
slice contents are replaced by the converted, sorted values the rows
read.  The `= default` escapes are the value an out-of-range read
inside the sort would produce in this embedding; Go would panic
instead.) -/
theorem updateFlights_mutates_slice (b : Board) (now : Int) (fl : List Flight)
    (off : Int) (htz : b.airportTZ = some off) :
    (updateFlightsSlice b fl
      = sortSliceGo lessFlight (fl.map (convertFlight (some off)))) ∧
    ((updateFlightsSlice b fl).length = fl.length) ∧
    (∀ g ∈ updateFlightsSlice b fl,
      (∃ f ∈ fl, g = convertFlight (some off) f) ∨ g = default) ∧
    (((updateFlightsSlice b fl).map Flight.flightNumber).Nodup →
      (b.updateFlights now fl).flights.map FlightRow.flight
        = (updateFlightsSlice b fl).map some) ∧
    (∀ r ∈ (b.updateFlights now fl).flights, ∀ f, r.flight = some f →
      (∃ g ∈ fl, f = convertFlight (some off) g) ∨ f = default) ∧
    (∀ f,
      (convertFlight (some off) f).scheduledDeparture
        = f.scheduledDeparture.inTZ off ∧
      (convertFlight (some off) f).estimatedDeparture
        = f.estimatedDeparture.map (GoTime.inTZ off) ∧
      (f.status = FlightStatus.delayed → ∀ e, f.estimatedDeparture = some e →
        (convertFlight (some off) f).remarks
          = "Delayed EST: " ++ (e.inTZ off).format1504)) := by
  refine ⟨?_, ?_, ?_, updateFlights_rows_flights b now fl, ?_, ?_⟩
  · unfold updateFlightsSlice
    rw [htz]
  · unfold updateFlightsSlice
    rw [sortSliceGo_len, List.length_map]
  · intro g hg
    unfold updateFlightsSlice at hg
    rw [htz] at hg
    refine sortSliceGo_P lessFlight
      (fun x => (∃ f ∈ fl, x = convertFlight (some off) f) ∨ x = default)
      (Or.inr rfl) _ ?_ g hg
    intro x hx
    rw [List.mem_map] at hx
    obtain ⟨f, hf, hcf⟩ := hx
    exact Or.inl ⟨f, hf, hcf.symm⟩
  · intro r hr f hrf
    rcases updateFlights_rows_mem b now fl r hr f hrf with hin | hdef
    · rw [htz, List.mem_map] at hin
      obtain ⟨g, hg, hcg⟩ := hin
      exact Or.inl ⟨g, hg, hcg.symm⟩
    · exact Or.inr hdef
  · intro f
    obtain ⟨h1, h2, h3, _⟩ := convertFlight_effects off f
    exact ⟨h1, h2, h3⟩

/-- An on-time snapshot used to witness C10. -/
def c10Flight (n : String) (t : Int) : Flight :=
  { status := FlightStatus.onTime, airlineCode := "AA", airlineName := "AA",
    flightNumber := n, destinationCode := "BOS", destinationCity := "Boston",
    gate := "B2", remarks := "On Time",
    scheduledDeparture := { unix := t, offset := 0 },
    estimatedDeparture := none }

/-- Witness for C10: two out-of-order snapshots (distinct flight
numbers) come back reordered and overwritten with their
timezone-converted values, and the rows read back exactly those slice
elements. -/
theorem updateFlights_mutates_slice_witness :
    ((newBoard "JFK" (some 3600) 15).airportTZ = some 3600) ∧
    ((updateFlightsSlice (newBoard "JFK" (some 3600) 15)
        [c10Flight "AA2" 7200, c10Flight "AA1" 3600]).length = 2) ∧
    (updateFlightsSlice (newBoard "JFK" (some 3600) 15)
        [c10Flight "AA2" 7200, c10Flight "AA1" 3600]
      = [convertFlight (some 3600) (c10Flight "AA1" 3600),
         convertFlight (some 3600) (c10Flight "AA2" 7200)]) ∧
    (((newBoard "JFK" (some 3600) 15).updateFlights 0
        [c10Flight "AA2" 7200, c10Flight "AA1" 3600]).flights.map
          FlightRow.flight
      = (updateFlightsSlice (newBoard "JFK" (some 3600) 15)
          [c10Flight "AA2" 7200, c10Flight "AA1" 3600]).map some) :=
  ⟨rfl,
    (updateFlights_mutates_slice (newBoard "JFK" (some 3600) 15) 0
      [c10Flight "AA2" 7200, c10Flight "AA1" 3600] 3600 rfl).2.1,
    by rfl,
    (updateFlights_mutates_slice (newBoard "JFK" (some 3600) 15) 0
      [c10Flight "AA2" 7200, c10Flight "AA1" 3600] 3600 rfl).2.2.2.1
      (by decide)⟩

end FIDS
